import Mathlib

/-!
Verification of the repo-guard reconciliation engine.

This file shallowly embeds the change-calculators, operation executors,
rate-limit gate and rate-limit error parser of the repo-guard controllers
(api/v1 types, the GithubTeam and GithubOrganization reconcilers and the
GitHub teams provider) and proves or refutes the specification claims
about them.  Go strings are modelled by Lean `String`, Go `time.Time`
and `time.Duration` by `Int` (seconds), Go `nil`-able maps by
`Option (List (String × String))`, and fallible external calls by
`Option`/`Except` valued oracles.
-/

set_option maxHeartbeats 1000000

namespace RepoGuard

/-! ## String helpers (models of the Go `strings` package on ASCII data) -/

/-- Model of `strings.ToLower` restricted to ASCII (all identifiers handled
by the controllers are ASCII). -/
def asciiLowerChar (c : Char) : Char :=
  if 'A' ≤ c ∧ c ≤ 'Z' then Char.ofNat (c.toNat + 32) else c

/-- `strings.ToLower` on a whole string. -/
def lowerStr (s : String) : String :=
  ⟨s.data.map asciiLowerChar⟩

/-- Model of `strings.EqualFold` (ASCII case-insensitive equality). -/
def eqFold (a b : String) : Bool :=
  decide (lowerStr a = lowerStr b)

/-- Does the list `hay` start with `needle`? -/
def startsWithList : List Char → List Char → Bool
  | _, [] => true
  | [], _ :: _ => false
  | a :: as, b :: bs => a = b && startsWithList as bs

/-- Model of `strings.Contains` at the character-list level. -/
def containsSub : List Char → List Char → Bool
  | [], needle => needle.isEmpty
  | h :: t, needle => startsWithList (h :: t) needle || containsSub t needle

/-- Model of `strings.Contains`. -/
def strContains (s sub : String) : Bool :=
  containsSub s.data sub.data

/-- Model of `strings.Split(s, ",")` (auxiliary recursion). -/
def splitCommaAux : List Char → List Char → List String
  | [], acc => [⟨acc.reverse⟩]
  | c :: t, acc => if c = ',' then ⟨acc.reverse⟩ :: splitCommaAux t [] else splitCommaAux t (c :: acc)

/-- Model of `strings.Split(s, ",")`. -/
def splitComma (s : String) : List String :=
  splitCommaAux s.data []

/-- Whitespace class of the RE2 escape `\s` (`[\t\n\f\r ]`). -/
def reIsSpace (c : Char) : Bool :=
  decide (c = ' ' ∨ c = '\t' ∨ c = '\n' ∨ c = '\x0c' ∨ c = '\r')

/-- ASCII whitespace trimmed by `strings.TrimSpace` (adds `\v` to `\s`). -/
def goIsSpace (c : Char) : Bool :=
  decide (c = ' ' ∨ c = '\t' ∨ c = '\n' ∨ c = '\x0b' ∨ c = '\x0c' ∨ c = '\r')

/-- Model of `strings.TrimSpace` (ASCII). -/
def goTrimSpace (cs : List Char) : List Char :=
  ((cs.dropWhile goIsSpace).reverse.dropWhile goIsSpace).reverse

/-- Lookup in a Go `map[string]string`; a missing key yields `""` exactly as
indexing a Go map does. -/
def getKey (m : List (String × String)) (k : String) : String :=
  match m.find? (fun p => decide (p.1 = k)) with
  | some p => p.2
  | none => ""

/-- Lookup through a possibly-`nil` Go label/annotation map: indexing a `nil`
map in Go safely returns the zero value `""`. -/
def getLabel (m : Option (List (String × String))) (k : String) : String :=
  match m with
  | none => ""
  | some l => getKey l k

/-! ## api/v1: team-side data model (`githubteam_types.go`) -/

/-- `GithubUserOperationType` (`"add"` / `"remove"`). -/
inductive GithubUserOperationType
  | add
  | remove
deriving DecidableEq

/-- `GithubUserOperationState` (`"pending"`, `"complete"`, `"skipped"`,
`"failed"`, `"notfound"`). -/
inductive GithubUserOperationState
  | pending
  | complete
  | skipped
  | failed
  | notfound
deriving DecidableEq

/-- `v1.Member`: a team member as `{GreenhouseID, GithubUsername}`. -/
structure Member where
  greenhouseID : String
  githubUsername : String
deriving DecidableEq

/-- `v1.GithubUserOperation`: one queued user operation. -/
structure GithubUserOperation where
  operation : GithubUserOperationType
  user : String
  state : GithubUserOperationState
  error : String := ""
  timestamp : Int := 0
deriving DecidableEq

/-- `v1.GithubTeamState`; `unset` models the Go zero value `""`. -/
inductive GithubTeamState
  | unset
  | pending
  | failed
  | complete
  | dryRun
  | ratelimited
deriving DecidableEq

/-- `v1.GithubTeamStatus`. -/
structure GithubTeamStatus where
  teamStatus : GithubTeamState := .unset
  teamStatusError : String := ""
  teamStatusTimestamp : Int := 0
  operations : List GithubUserOperation := []
  members : List Member := []
deriving DecidableEq

/-- `GithubTeam.PendingOperationsFound`. -/
def teamPendingOperationsFound (s : GithubTeamStatus) : Bool :=
  s.operations.any (fun op => decide (op.state = .pending))

/-- `GithubTeam.FailedOperationsFound`. -/
def teamFailedOperationsFound (s : GithubTeamStatus) : Bool :=
  s.operations.any (fun op => decide (op.state = .failed))

/-! ## `GithubTeam.ChangeCalculator` (`githubteam_types.go` lines 122-219) -/

/-- `buildUserOperationStateMap`: Go builds a map keyed by the lower-cased
login, inserting while iterating, so a lookup returns the state of the
*last* operation whose lower-cased user equals the key (or nothing). -/
def buildUserOperationStateMap (ops : List GithubUserOperation) (key : String) :
    Option GithubUserOperationState :=
  (ops.reverse.find? (fun op => decide (lowerStr op.user = key))).map (·.state)

/-- The dedup test of the add loop: an operation for the same user (matched
with `strings.EqualFold`), of kind add, in state pending, complete, skipped
or notfound. -/
def addOperationExists (ops : List GithubUserOperation) (user : String) : Bool :=
  ops.any fun op =>
    decide (lowerStr op.user = lowerStr user ∧ op.operation = .add ∧
      (op.state = .pending ∨ op.state = .complete ∨ op.state = .skipped ∨ op.state = .notfound))

/-- The dedup test of the remove loop: an operation for the same user, of
kind remove, in state pending, complete or skipped. -/
def removeOperationExists (ops : List GithubUserOperation) (user : String) : Bool :=
  ops.any fun op =>
    decide (lowerStr op.user = lowerStr user ∧ op.operation = .remove ∧
      (op.state = .pending ∨ op.state = .complete ∨ op.state = .skipped))

/-- First loop of `ChangeCalculator`: walk the desired members, skipping
users whose last recorded operation state is notfound (the Go
`userOpStateMap` is built once from the original operations), skipping
current members, deduplicating against the *current* (growing) operation
list, and appending pending add operations. -/
def changeCalculatorAddLoop (now : Int)
    (stateMap : String → Option GithubUserOperationState) (members : List Member) :
    List Member → List GithubUserOperation → Bool → List GithubUserOperation × Bool
  | [], ops, changed => (ops, changed)
  | d :: rest, ops, changed =>
    let lu := lowerStr d.githubUsername
    if stateMap lu = some .notfound then
      changeCalculatorAddLoop now stateMap members rest ops changed
    else if members.any (fun m => decide (lowerStr m.githubUsername = lu)) then
      changeCalculatorAddLoop now stateMap members rest ops changed
    else if addOperationExists ops d.githubUsername then
      changeCalculatorAddLoop now stateMap members rest ops changed
    else
      changeCalculatorAddLoop now stateMap members rest
        (ops ++ [{ operation := .add
                   user := d.githubUsername
                   state := .pending
                   timestamp := now }]) true

/-- Second loop of `ChangeCalculator`: walk the current members, skipping
users still desired, deduplicating against the current operation list, and
appending pending remove operations. -/
def changeCalculatorRemoveLoop (now : Int) (desired : List Member) :
    List Member → List GithubUserOperation → Bool → List GithubUserOperation × Bool
  | [], ops, changed => (ops, changed)
  | c :: rest, ops, changed =>
    let lu := lowerStr c.githubUsername
    if desired.any (fun m => decide (lowerStr m.githubUsername = lu)) then
      changeCalculatorRemoveLoop now desired rest ops changed
    else if removeOperationExists ops c.githubUsername then
      changeCalculatorRemoveLoop now desired rest ops changed
    else
      changeCalculatorRemoveLoop now desired rest
        (ops ++ [{ operation := .remove
                   user := c.githubUsername
                   state := .pending
                   timestamp := now }]) true

/-- `GithubTeam.ChangeCalculator`: diff desired members against
`status.Members`, appending deduplicated add/remove operations; when
anything was appended the team status switches to pending. -/
def ChangeCalculator (now : Int) (status : GithubTeamStatus) (desiredMembers : List Member) :
    Bool × GithubTeamStatus :=
  let stateMap := buildUserOperationStateMap status.operations
  let r1 := changeCalculatorAddLoop now stateMap status.members desiredMembers status.operations false
  let r2 := changeCalculatorRemoveLoop now desiredMembers status.members r1.1 r1.2
  if r2.2 then
    (true, { status with
             operations := r2.1
             teamStatus := .pending
             teamStatusTimestamp := now })
  else
    (false, { status with operations := r2.1 })

/-! ## Team controller labels and gates (`githubteam_controller.go`) -/

def GITHUB_TEAMS_LABEL_ADD_USER : String := "githubguard.sap/addUser"
def GITHUB_TEAMS_LABEL_REMOVE_USER : String := "githubguard.sap/removeUser"
def GITHUB_TEAMS_LABEL_ADD_REMOVE_USER_ENABLED_VALUE : String := "true"

/-- The add-user gate of the team executor: `Labels != nil &&
Labels[addUser] != "" && Labels[addUser] != "true"` blocks the call. -/
def teamAddUserGateBlocked (labels : Option (List (String × String))) : Bool :=
  match labels with
  | none => false
  | some l =>
    decide (getKey l GITHUB_TEAMS_LABEL_ADD_USER ≠ "" ∧
      getKey l GITHUB_TEAMS_LABEL_ADD_USER ≠ GITHUB_TEAMS_LABEL_ADD_REMOVE_USER_ENABLED_VALUE)

/-- The remove-user gate of the team executor. -/
def teamRemoveUserGateBlocked (labels : Option (List (String × String))) : Bool :=
  match labels with
  | none => false
  | some l =>
    decide (getKey l GITHUB_TEAMS_LABEL_REMOVE_USER ≠ "" ∧
      getKey l GITHUB_TEAMS_LABEL_REMOVE_USER ≠ GITHUB_TEAMS_LABEL_ADD_REMOVE_USER_ENABLED_VALUE)

/-! ## GitHub teams provider (`internal/github/teams.go`) -/

/-- `DefaultTeamsProvider.AddUser`: the underlying HTTP call is summarised
by the pair (error message if any, HTTP status code if a response exists).
Returns the Go pair `(userFound, err)`: on an error with a 404 response the
user is reported not found; on an error with another non-200 response the
user is reported found together with the error; on an error carrying no
response (a transport error) the fallback `return false, err` reports the
user not found. -/
def DefaultTeamsProviderAddUser (err : Option String) (response : Option Nat) :
    Bool × Option String :=
  match err with
  | some e =>
    match response with
    | some code =>
      if code = 404 then (false, some "user not found in github")
      else if code ≠ 200 then (true, some ("adding user to team response code: " ++ toString code))
      else (false, some e)
    | none => (false, some e)
  | none => (true, none)

/-- `DefaultTeamsProvider.AddTeam`: a 422 response accompanying an error
("Name must be unique for this org") is treated as success; any other error
is returned; a non-error response whose code is not 201 is an error.  A
`nil` error from the client always carries a response, so the
error-free/response-free case cannot arise and is modelled as success. -/
def DefaultTeamsProviderAddTeam (err : Option String) (response : Option Nat) :
    Option String :=
  match err with
  | some e => if response = some 422 then none else some e
  | none =>
    match response with
    | some code => if code ≠ 201 then some ("creating team response code: " ++ toString code) else none
    | none => none

/-! ## Team operation executor (`githubteam_controller.go` lines 846-947) -/

/-- The forge side of the team executor: `AddUser` yields the Go pair
`(userFound, err)`, `RemoveUser` yields an optional error. -/
structure TeamForge where
  addUser : String → Bool × Option String
  removeUser : String → Option String

/-- A mutating forge call issued by the team executor. -/
inductive TeamCall
  | addUser (team user : String)
  | removeUser (team user : String)
deriving DecidableEq

/-- One step of the executor loop on a single operation: the rewritten
operation, whether the status changed, the assignment (if any) made to the
Go `failed` flag by this branch, and the forge calls issued.  Gated-off
operations become skipped and assign `failed = false`; a not-found user
becomes notfound without touching the flag; an errored call becomes failed
and assigns `failed = true`; a successful call becomes complete. -/
def execTeamOp (labels : Option (List (String × String))) (forge : TeamForge)
    (teamName : String) (now : Int) (op : GithubUserOperation) :
    GithubUserOperation × Bool × Option Bool × List TeamCall :=
  if op.state = .pending then
    match op.operation with
    | .add =>
      if teamAddUserGateBlocked labels then
        ({ op with state := .skipped, timestamp := now }, true, some false, [])
      else
        match forge.addUser op.user with
        | (userFound, err) =>
          if userFound = false then
            ({ op with
                state := .notfound
                error := "user not found on GitHub"
                timestamp := now }, true, none, [.addUser teamName op.user])
          else
            match err with
            | some e =>
              ({ op with state := .failed, error := e, timestamp := now },
                true, some true, [.addUser teamName op.user])
            | none =>
              ({ op with state := .complete, timestamp := now },
                true, none, [.addUser teamName op.user])
    | .remove =>
      if teamRemoveUserGateBlocked labels then
        ({ op with state := .skipped, timestamp := now }, true, some false, [])
      else
        match forge.removeUser op.user with
        | some e =>
          ({ op with state := .failed, error := e, timestamp := now },
          true, some true, [.removeUser teamName op.user])
        | none =>
          ({ op with state := .complete, timestamp := now },
            true, none, [.removeUser teamName op.user])
  else (op, false, none, [])

/-- The executor loop over the whole queue.  The Go `failed` flag is a
mutable variable assigned by some branches; its final value is the last
assignment made, so the loop returns that last assignment (if any) as an
`Option Bool`. -/
def execTeamOpsGo (labels : Option (List (String × String))) (forge : TeamForge)
    (teamName : String) (now : Int) :
    List GithubUserOperation → List GithubUserOperation × Bool × Option Bool × List TeamCall
  | [] => ([], false, none, [])
  | op :: rest =>
    match execTeamOp labels forge teamName now op with
    | (op', changedHere, failedUpd, calls) =>
      match execTeamOpsGo labels forge teamName now rest with
      | (ops', changedRest, failedRest, callsRest) =>
        (op' :: ops', changedHere || changedRest,
          (match failedRest with
           | some b => some b
           | none => failedUpd),
          calls ++ callsRest)

/-- The pending-operations block of `GithubTeamReconciler.Reconcile`
(lines 846-947): when the team status is pending, execute all pending
operations; if anything changed, persist the queue with the top-level
status set to failed exactly when the `failed` flag ends true, otherwise
complete.  Returns (statusChanged, new status, forge calls issued). -/
def executeTeamPendingOperations (labels : Option (List (String × String)))
    (forge : TeamForge) (teamName : String) (now : Int) (status : GithubTeamStatus) :
    Bool × GithubTeamStatus × List TeamCall :=
  if status.teamStatus = .pending then
    match execTeamOpsGo labels forge teamName now status.operations with
    | (ops', changed, failedAssign, calls) =>
      let failed := failedAssign.getD false
      if changed then
        (true,
          { status with
            operations := ops'
            teamStatus := if failed then .failed else .complete
            teamStatusTimestamp := now }, calls)
      else (false, status, calls)
  else (false, status, [])

/-! ## Rate-limit error parser (`parseGitHubRateLimitReset`) -/

/-- The literal `until`. -/
def untilLit : List Char := ['u', 'n', 't', 'i', 'l']

/-- Attempt of the regular expression `until\s+([^,\]]+)` at the start of
the character list: after the literal `until` at least one `\s` character
must follow; the capture group greedily takes characters other than `,` and
`]`.  When the capture would otherwise be empty, RE2 backtracks the greedy
`\s+` by one character so that the capture holds the final whitespace
character; with a single whitespace character no backtracking is possible
and the position does not match. -/
def tryUntilMatchAt (s : List Char) : Option (List Char) :=
  if startsWithList s untilLit then
    let t := s.drop 5
    let w := (t.takeWhile reIsSpace).length
    if w = 0 then none
    else
      let seg := t.takeWhile (fun c => decide (¬(c = ',' ∨ c = ']')))
      if w < seg.length then some (seg.drop w)
      else if 2 ≤ w then some (seg.drop (w - 1))
      else none
  else none

/-- Leftmost match of `until\s+([^,\]]+)`: the capture of the first
position where the pattern matches (`regexp.FindStringSubmatch`). -/
def findUntilCapture : List Char → Option (List Char)
  | [] => none
  | c :: t =>
    match tryUntilMatchAt (c :: t) with
    | some cap => some cap
    | none => findUntilCapture t

/-- `parseGitHubRateLimitReset`: recognise a GitHub rate-limit error string
and produce the reset instant.  Go's `time.Parse` attempts over the three
layouts are abstracted into `parseTs`, which yields the parsed instant when
some layout accepts the (trimmed) captured text.  Invitation-rate-limit
phrases carry no timestamp and yield a one-hour back-off from `now`. -/
def parseGitHubRateLimitReset (parseTs : String → Option Int) (now : Int)
    (errStr : String) : Option Int :=
  if errStr = "" then none
  else
    let lowered := lowerStr errStr
    if strContains lowered "organization invitation rate limit" ||
        strContains lowered "invitation rate limit" ||
        strContains lowered "exceeded the organization invitation rate limit" then
      some (now + 3600)
    else if !(strContains lowered "rate limit") || !(strContains lowered "until ") then
      none
    else
      match findUntilCapture errStr.data with
      | none => none
      | some cap => parseTs ⟨goTrimSpace cap⟩

/-- The rate-limit recognition rule as the specification words it: a string
containing the phrase `organization invitation rate limit` (or
`invitation rate limit`) yields a reset of now plus one hour; otherwise a
string containing both `rate limit` and `until ` followed by a parseable
timestamp (the text captured after the first occurrence of `until` plus
whitespace, up to the next comma or closing bracket) yields that timestamp;
every other string yields no rate limit. -/
def rateLimitResetSpec (parseTs : String → Option Int) (now : Int)
    (errStr : String) : Option Int :=
  let lowered := lowerStr errStr
  if strContains lowered "organization invitation rate limit" ||
      strContains lowered "invitation rate limit" then
    some (now + 3600)
  else if strContains lowered "rate limit" && strContains lowered "until " then
    (findUntilCapture errStr.data).bind (fun cap => parseTs ⟨goTrimSpace cap⟩)
  else
    none

/-! ## Team rate-limit gate (`githubteam_controller.go` lines 86-113) -/

/-- Outcome of the rate-limit gate at the top of a reconcile: an early
return with a `RequeueAfter` duration, or proceeding with a (possibly
rewritten) status. -/
inductive GateOutcome
  | requeue (d : Int)
  | proceed (status : GithubTeamStatus)
deriving DecidableEq

/-- The gate: when the stored status is ratelimited with a non-empty error
that parses to a reset instant, either requeue for the remaining time (if
the reset is still in the future) or clear the error, recompute the team
status from the operation queue and proceed. -/
def teamRateLimitGate (parseTs : String → Option Int) (now : Int)
    (status : GithubTeamStatus) : GateOutcome :=
  if status.teamStatus = .ratelimited ∧ status.teamStatusError ≠ "" then
    match parseGitHubRateLimitReset parseTs now status.teamStatusError with
    | some resetAt =>
      if now < resetAt then .requeue (resetAt - now)
      else
        let s1 := { status with teamStatusError := "" }
        .proceed { s1 with
                   teamStatus :=
                     if teamPendingOperationsFound s1 then .pending
                     else if teamFailedOperationsFound s1 then .failed
                     else .complete
                   teamStatusTimestamp := now }
    | none => .proceed status
  else .proceed status

/-- The reconcile seen from the gate: the whole remainder of
`GithubTeamReconciler.Reconcile` (which contains every forge call of the
reconcile) is abstracted as `rest`, producing a requeue duration and the
forge calls issued.  An early return at the gate yields the computed
requeue duration and no forge call at all. -/
def teamReconcileFromGate (parseTs : String → Option Int) (now : Int)
    (status : GithubTeamStatus) (rest : GithubTeamStatus → Int × List TeamCall) :
    Int × List TeamCall :=
  match teamRateLimitGate parseTs now status with
  | .requeue d => (d, [])
  | .proceed s => rest s

/-! ## api/v1: organization-side data model (`githuborganization_types.go`) -/

/-- `GithubTeamWithPermission`: `{Team, Permission}`; permissions are Go
strings (`admin` / `push` / `pull`). -/
structure GithubTeamWithPermission where
  team : String
  permission : String
deriving DecidableEq

/-- `GithubRepository`: an observed repository with its team/permission
assignments. -/
structure GithubRepository where
  name : String
  teams : List GithubTeamWithPermission := []
deriving DecidableEq

/-- `GithubRepoTeamOperationType` (`"add"` / `"remove"`). -/
inductive GithubRepoTeamOperationType
  | add
  | remove
deriving DecidableEq

/-- `GithubRepoTeamOperationState` (`"pending"`, `"complete"`, `"failed"`,
`"skipped"`). -/
inductive GithubRepoTeamOperationState
  | pending
  | complete
  | failed
  | skipped
deriving DecidableEq

/-- `v1.GithubRepoTeamOperation`. -/
structure GithubRepoTeamOperation where
  operation : GithubRepoTeamOperationType
  repo : String
  team : String
  permission : String := ""
  state : GithubRepoTeamOperationState
  error : String := ""
  timestamp : Int := 0
deriving DecidableEq

/-- `GithubTeamOperationType` (`"add"` / `"remove"`). -/
inductive GithubTeamOperationType
  | add
  | remove
deriving DecidableEq

/-- `v1.GithubTeamOperation`: an organization-level team operation; its
`State` field is declared with the user-operation state type in the
source. -/
structure GithubTeamOperation where
  operation : GithubTeamOperationType
  team : String
  state : GithubUserOperationState
  error : String := ""
  timestamp : Int := 0
deriving DecidableEq

/-- `v1.GithubOrganizationStatusOperations`. -/
structure GithubOrganizationStatusOperations where
  organizationOwnerOperations : List GithubUserOperation := []
  githubTeamOperations : List GithubTeamOperation := []
  repositoryTeamOperations : List GithubRepoTeamOperation := []
deriving DecidableEq

/-- `v1.GithubOrganizationState`; `unset` models the Go zero value `""`. -/
inductive GithubOrganizationState
  | unset
  | pending
  | failed
  | complete
  | dryRun
  | ratelimited
deriving DecidableEq

/-- `v1.GithubOrganizationStatus`. -/
structure GithubOrganizationStatus where
  teams : List String := []
  publicRepositories : List GithubRepository := []
  privateRepositories : List GithubRepository := []
  organizationOwners : List Member := []
  outOfPolicyRepositories : List String := []
  organizationStatus : GithubOrganizationState := .unset
  organizationStatusError : String := ""
  organizationStatusTimestamp : Int := 0
  operations : GithubOrganizationStatusOperations := {}
deriving DecidableEq

/-- `v1.GithubTeamRepositorySpec` (override input). -/
structure GithubTeamRepositorySpec where
  github : String := ""
  organization : String := ""
  team : String
  repository : List String
  permission : String
deriving DecidableEq

/-- `v1.GithubTeamRepository`. -/
structure GithubTeamRepository where
  spec : GithubTeamRepositorySpec
deriving DecidableEq

/-- `v1.GithubOrganizationSpec`. -/
structure GithubOrganizationSpec where
  github : String := ""
  organization : String := ""
  organizationOwnerTeams : List String := []
  defaultPublicRepositoryTeams : List GithubTeamWithPermission := []
  defaultPrivateRepositoryTeams : List GithubTeamWithPermission := []
deriving DecidableEq

/-- `v1.GithubOrganization` (metadata restricted to the labels and
annotations the reconciler reads). -/
structure GithubOrganization where
  labels : Option (List (String × String)) := none
  annotationsMap : Option (List (String × String)) := none
  spec : GithubOrganizationSpec := {}
  status : GithubOrganizationStatus := {}
deriving DecidableEq

/-- `GithubOrganization.PendingOperationsFound`. -/
def orgPendingOperationsFound (s : GithubOrganizationStatus) : Bool :=
  s.operations.organizationOwnerOperations.any (fun op => decide (op.state = .pending)) ||
  s.operations.repositoryTeamOperations.any (fun op => decide (op.state = .pending)) ||
  s.operations.githubTeamOperations.any (fun op => decide (op.state = .pending))

/-- `GithubOrganization.FailedOperationsFound`. -/
def orgFailedOperationsFound (s : GithubOrganizationStatus) : Bool :=
  s.operations.organizationOwnerOperations.any (fun op => decide (op.state = .failed)) ||
  s.operations.repositoryTeamOperations.any (fun op => decide (op.state = .failed)) ||
  s.operations.githubTeamOperations.any (fun op => decide (op.state = .failed))

/-- `GithubOrganization.CleanCompletedOperations`: drop every complete
operation from the three queues. -/
def CleanCompletedOperations (s : GithubOrganizationStatus) :
    GithubOrganizationStatus × Bool :=
  let newOwner := s.operations.organizationOwnerOperations.filter
    (fun op => decide (op.state ≠ .complete))
  let newRepo := s.operations.repositoryTeamOperations.filter
    (fun op => decide (op.state ≠ .complete))
  let newTeam := s.operations.githubTeamOperations.filter
    (fun op => decide (op.state ≠ .complete))
  let cleaned :=
    decide (newOwner.length ≠ s.operations.organizationOwnerOperations.length) ||
    decide (newRepo.length ≠ s.operations.repositoryTeamOperations.length) ||
    decide (newTeam.length ≠ s.operations.githubTeamOperations.length)
  ({ s with operations :=
      { organizationOwnerOperations := newOwner
        githubTeamOperations := newTeam
        repositoryTeamOperations := newRepo } }, cleaned)

/-- `GithubOrganization.CleanFailedOperations`: drop every failed operation
from the three queues. -/
def CleanFailedOperations (s : GithubOrganizationStatus) :
    GithubOrganizationStatus × Bool :=
  let newOwner := s.operations.organizationOwnerOperations.filter
    (fun op => decide (op.state ≠ .failed))
  let newRepo := s.operations.repositoryTeamOperations.filter
    (fun op => decide (op.state ≠ .failed))
  let newTeam := s.operations.githubTeamOperations.filter
    (fun op => decide (op.state ≠ .failed))
  let cleaned :=
    decide (newOwner.length ≠ s.operations.organizationOwnerOperations.length) ||
    decide (newRepo.length ≠ s.operations.repositoryTeamOperations.length) ||
    decide (newTeam.length ≠ s.operations.githubTeamOperations.length)
  ({ s with operations :=
      { organizationOwnerOperations := newOwner
        githubTeamOperations := newTeam
        repositoryTeamOperations := newRepo } }, cleaned)

/-- `uniquePendingOrFailedRepoNames`: distinct non-empty repository names
carrying a pending or failed repo-team operation.  The Go set iteration
order is arbitrary; first-occurrence order is used here. -/
def uniquePendingOrFailedRepoNames (ops : List GithubRepoTeamOperation) : List String :=
  (ops.filterMap (fun op =>
      if (op.state = .pending ∨ op.state = .failed) ∧ op.repo ≠ "" then some op.repo
      else none)).dedup

/-! ## `GithubOrganization.OwnerChangeCalculator` and `TeamChangeCalculator` -/

/-- Dedup test of the owner calculator: a waiting task for this user of
this kind whose state is not complete. -/
def ownerOperationFound (ops : List GithubUserOperation)
    (user : String) (kind : GithubUserOperationType) : Bool :=
  ops.any fun op =>
    decide (lowerStr op.user = lowerStr user ∧ op.operation = kind ∧ op.state ≠ .complete)

/-- `GithubOrganization.OwnerChangeCalculator`: enqueue a pending add for
every Kubernetes owner missing from the observed owners and a pending
remove for every observed owner not desired, deduplicating against
non-complete operations of the same user and kind; any change switches the
organization status to pending.  Comparisons are by GitHub username,
case-insensitively. -/
def OwnerChangeCalculator (now : Int) (g : GithubOrganization)
    (ownersFromKubernetes : List Member) : Bool × GithubOrganizationStatus :=
  let addStep := ownersFromKubernetes.foldl (fun acc kubernetesOwner =>
    let githubOwnerFound := g.status.organizationOwners.any
      (fun githubOwner => eqFold githubOwner.githubUsername kubernetesOwner.githubUsername)
    if !githubOwnerFound ∧
        !(ownerOperationFound acc.1 kubernetesOwner.githubUsername .add) then
      (acc.1 ++ [{ operation := .add
                   user := kubernetesOwner.githubUsername
                   state := .pending
                   timestamp := now }], true)
    else acc)
    (g.status.operations.organizationOwnerOperations, false)
  let removeStep := g.status.organizationOwners.foldl (fun acc githubOwner =>
    let kubernetesOwnerFound := ownersFromKubernetes.any
      (fun kubernetesOwner => eqFold kubernetesOwner.githubUsername githubOwner.githubUsername)
    if !kubernetesOwnerFound ∧
        !(ownerOperationFound acc.1 githubOwner.githubUsername .remove) then
      (acc.1 ++ [{ operation := .remove
                   user := githubOwner.githubUsername
                   state := .pending
                   timestamp := now }], true)
    else acc)
    addStep
  let changed := removeStep.2
  let ns := { g.status with operations :=
      { g.status.operations with organizationOwnerOperations := removeStep.1 } }
  if changed then
    (true, { ns with
             organizationStatus := .pending
             organizationStatusError := ""
             organizationStatusTimestamp := now })
  else (false, ns)

/-- Dedup test of the team calculator. -/
def teamOperationFound (ops : List GithubTeamOperation)
    (team : String) (kind : GithubTeamOperationType) : Bool :=
  ops.any fun op =>
    decide (lowerStr op.team = lowerStr team ∧ op.operation = kind ∧ op.state ≠ .complete)

/-- `GithubOrganization.TeamChangeCalculator`: enqueue a pending add for
every Kubernetes team missing from the observed teams and a pending remove
for every observed team not in Kubernetes, deduplicating against
non-complete operations of the same team and kind. -/
def TeamChangeCalculator (now : Int) (g : GithubOrganization)
    (teamsFromKubernetes : List String) : Bool × GithubOrganizationStatus :=
  let addStep := teamsFromKubernetes.foldl (fun acc kubernetesTeam =>
    let kubernetesTeamFound := g.status.teams.any (fun k => eqFold k kubernetesTeam)
    if !kubernetesTeamFound ∧ !(teamOperationFound acc.1 kubernetesTeam .add) then
      (acc.1 ++ [{ operation := .add
                   team := kubernetesTeam
                   state := .pending
                   timestamp := now }], true)
    else acc)
    (g.status.operations.githubTeamOperations, false)
  let removeStep := g.status.teams.foldl (fun acc githubTeam =>
    let kubernetesTeamFound := teamsFromKubernetes.any
      (fun kubernetesTeam => eqFold kubernetesTeam githubTeam)
    if !kubernetesTeamFound ∧ !(teamOperationFound acc.1 githubTeam .remove) then
      (acc.1 ++ [{ operation := .remove
                   team := githubTeam
                   state := .pending
                   timestamp := now }], true)
    else acc)
    addStep
  let changed := removeStep.2
  let ns := { g.status with operations :=
      { g.status.operations with githubTeamOperations := removeStep.1 } }
  if changed then
    (true, { ns with
             organizationStatus := .pending
             organizationStatusError := ""
             organizationStatusTimestamp := now })
  else (false, ns)

/-! ## `repoChangeCalculator` (`githuborganization_types.go` lines 388-566) -/

/-- Dedup test: a waiting remove task for this (team, repo) pair whose
state is not complete, matched against the *prior* operation queue. -/
def repoTeamOperationRemoveFound (operations : List GithubRepoTeamOperation)
    (team repoName : String) : Bool :=
  operations.any fun op =>
    decide (lowerStr op.team = lowerStr team ∧ op.repo = repoName ∧
      op.operation = .remove ∧ op.state ≠ .complete)

/-- Dedup test: a waiting add task for this (team, repo) pair whose state
is not complete. -/
def repoTeamOperationAddFound (operations : List GithubRepoTeamOperation)
    (team repoName : String) : Bool :=
  operations.any fun op =>
    decide (lowerStr op.team = lowerStr team ∧ op.repo = repoName ∧
      op.operation = .add ∧ op.state ≠ .complete)

/-- The remove-then-add pair enqueued on a permission mismatch, each half
deduplicated against the prior operations only. -/
def repoMismatchOps (now : Int) (operations : List GithubRepoTeamOperation)
    (repoName : String) (team configTeam : GithubTeamWithPermission) :
    List GithubRepoTeamOperation :=
  (if repoTeamOperationRemoveFound operations team.team repoName then []
   else [{ operation := .remove
           repo := repoName
           team := team.team
           state := .pending
           timestamp := now }]) ++
  (if repoTeamOperationAddFound operations team.team repoName then []
   else [{ operation := .add
           repo := repoName
           team := configTeam.team
           permission := configTeam.permission
           state := .pending
           timestamp := now }])

/-- First pass over one repository ("ensure that default teams are
assigned"): for each configured team, every observed entry with the same
name but a different permission enqueues a remove/add pair, and a
configured team not observed at all enqueues an add. -/
def repoConfigPass (now : Int) (operations : List GithubRepoTeamOperation)
    (repo : GithubRepository) (cfg : List GithubTeamWithPermission) :
    List GithubRepoTeamOperation :=
  cfg.foldl (fun acc configTeam =>
    let mismatches := repo.teams.foldl (fun acc2 team =>
      if team.team = configTeam.team ∧ team.permission ≠ configTeam.permission then
        acc2 ++ repoMismatchOps now operations repo.name team configTeam
      else acc2) []
    let configTeamFound := repo.teams.any (fun team => decide (team.team = configTeam.team))
    acc ++ mismatches ++
      (if !configTeamFound ∧
          !(repoTeamOperationAddFound operations configTeam.team repo.name) then
        [{ operation := .add
           repo := repo.name
           team := configTeam.team
           permission := configTeam.permission
           state := .pending
           timestamp := now }]
      else [])) []

/-- Second pass over one repository ("iterate over the teams in the
repo"): for each observed team, every configured entry with the same name
but a different permission enqueues a remove/add pair again, and an
observed team absent from the configuration enqueues a remove. -/
def repoObservedPass (now : Int) (operations : List GithubRepoTeamOperation)
    (repo : GithubRepository) (cfg : List GithubTeamWithPermission) :
    List GithubRepoTeamOperation :=
  repo.teams.foldl (fun acc team =>
    let mismatches := cfg.foldl (fun acc2 configTeam =>
      if team.team = configTeam.team ∧ team.permission ≠ configTeam.permission then
        acc2 ++ repoMismatchOps now operations repo.name team configTeam
      else acc2) []
    let repoTeamFound := cfg.any (fun configTeam => decide (team.team = configTeam.team))
    acc ++ mismatches ++
      (if !repoTeamFound ∧
          !(repoTeamOperationRemoveFound operations team.team repo.name) then
        [{ operation := .remove
           repo := repo.name
           team := team.team
           state := .pending
           timestamp := now }]
      else [])) []

/-- `repoChangeCalculator`: for each observed repository, extend the
default configuration with the matching overrides (or drop the defaults
when the repository is on the skip list) and run the two passes; every
dedup test consults only the prior operation queue. -/
def repoChangeCalculator (now : Int) (defaultConfig : List GithubTeamWithPermission)
    (actual : List GithubRepository) (exceptions : List GithubTeamRepository)
    (skipDefaultRepositoryTeams : List String)
    (operations : List GithubRepoTeamOperation) : List GithubRepoTeamOperation :=
  actual.foldl (fun acc repo =>
    let cfg0 := if skipDefaultRepositoryTeams.contains repo.name then [] else defaultConfig
    let cfg := cfg0 ++ (exceptions.filterMap (fun e =>
      if e.spec.repository.contains repo.name then
        some { team := e.spec.team, permission := e.spec.permission }
      else none))
    acc ++ repoConfigPass now operations repo cfg ++ repoObservedPass now operations repo cfg)
    []

/-- Annotation key `githubguard.sap/skipDefaultRepositoryTeams`
(`GITHUB_ORG_ANNOTATION_SKIP_DEFAULT_TEAM_REPOSITORY` in the source). -/
def GITHUB_ORG_SKIP_DEFAULT_TEAM_REPOSITORY : String :=
  "githubguard.sap/skipDefaultRepositoryTeams"

/-- `GithubOrganization.RepoChangeCalculator`: an empty default team list
for private (then public) repositories short-circuits into a failed status
with an explanatory error; otherwise run `repoChangeCalculator` over the
private and the public repositories (both deduplicating against the status
operation queue as it was before this call) and append the produced
operations. -/
def RepoChangeCalculator (now : Int) (g : GithubOrganization)
    (exceptions : List GithubTeamRepository) : Bool × GithubOrganizationStatus :=
  if g.spec.defaultPrivateRepositoryTeams.length = 0 then
    (true, { g.status with
             organizationStatus := .failed
             organizationStatusError := "DefaultPrivateRepositoryTeams is empty"
             organizationStatusTimestamp := now })
  else if g.spec.defaultPublicRepositoryTeams.length = 0 then
    (true, { g.status with
             organizationStatus := .failed
             organizationStatusError := "DefaultPublicRepositoryTeams is empty"
             organizationStatusTimestamp := now })
  else
    let skipList :=
      if getLabel g.annotationsMap GITHUB_ORG_SKIP_DEFAULT_TEAM_REPOSITORY ≠ "" then
        splitComma (getLabel g.annotationsMap GITHUB_ORG_SKIP_DEFAULT_TEAM_REPOSITORY)
      else []
    let priorOps := g.status.operations.repositoryTeamOperations
    let privateRepoOperations := repoChangeCalculator now
      g.spec.defaultPrivateRepositoryTeams g.status.privateRepositories exceptions
      skipList priorOps
    let publicRepoOperations := repoChangeCalculator now
      g.spec.defaultPublicRepositoryTeams g.status.publicRepositories exceptions
      skipList priorOps
    let changed := decide (0 < privateRepoOperations.length) ||
      decide (0 < publicRepoOperations.length)
    let ns := { g.status with operations :=
        { g.status.operations with repositoryTeamOperations :=
            priorOps ++ privateRepoOperations ++ publicRepoOperations } }
    if changed then
      (true, { ns with
               organizationStatus := .pending
               organizationStatusError := ""
               organizationStatusTimestamp := now })
    else (false, ns)

/-! ## Organization controller labels and gates
(`githuborganization_controller.go`) -/

def GITHUB_ORG_LABEL_ADD_ORG_OWNER : String := "githubguard.sap/addOrganizationOwner"
def GITHUB_ORG_LABEL_REMOVE_ORG_OWNER : String := "githubguard.sap/removeOrganizationOwner"
def GITHUB_ORG_LABEL_ADD_TEAM : String := "githubguard.sap/addTeam"
def GITHUB_ORG_LABEL_REMOVE_TEAM : String := "githubguard.sap/removeTeam"
def GITHUB_ORG_LABEL_DRY_RUN : String := "githubguard.sap/dryRun"
def GITHUB_ORG_LABEL_ADD_REPOSITORY_TEAM : String := "githubguard.sap/addRepositoryTeam"
def GITHUB_ORG_LABEL_REMOVE_REPOSITORY_TEAM : String := "githubguard.sap/removeRepositoryTeam"
def GITHUB_ORG_LABEL_CLEAN_OPERATIONS : String := "githubguard.sap/cleanOperations"
def GITHUB_ORG_LABEL_FAILED_TTL : String := "githubguard.sap/failedTTL"
def GITHUB_ORG_LABEL_COMPLETED_TTL : String := "githubguard.sap/completedTTL"

/-- The owner-add gate of the organization executor: the Go condition is
`Labels != nil && Labels[addOrganizationOwner] != "true"`, so with no
labels map at all the gate does not block. -/
def ownerAddGateBlocked (labels : Option (List (String × String))) : Bool :=
  match labels with
  | none => false
  | some l => decide (getKey l GITHUB_ORG_LABEL_ADD_ORG_OWNER ≠ "true")

/-- The owner-remove gate (`Labels != nil &&
Labels[removeOrganizationOwner] != "true"`). -/
def ownerRemoveGateBlocked (labels : Option (List (String × String))) : Bool :=
  match labels with
  | none => false
  | some l => decide (getKey l GITHUB_ORG_LABEL_REMOVE_ORG_OWNER ≠ "true")

/-- The team-add gate. -/
def orgTeamAddGateBlocked (labels : Option (List (String × String))) : Bool :=
  match labels with
  | none => false
  | some l => decide (getKey l GITHUB_ORG_LABEL_ADD_TEAM ≠ "true")

/-- The team-remove gate. -/
def orgTeamRemoveGateBlocked (labels : Option (List (String × String))) : Bool :=
  match labels with
  | none => false
  | some l => decide (getKey l GITHUB_ORG_LABEL_REMOVE_TEAM ≠ "true")

/-- The repository-team-add gate. -/
def repoTeamAddGateBlocked (labels : Option (List (String × String))) : Bool :=
  match labels with
  | none => false
  | some l => decide (getKey l GITHUB_ORG_LABEL_ADD_REPOSITORY_TEAM ≠ "true")

/-- The repository-team-remove gate. -/
def repoTeamRemoveGateBlocked (labels : Option (List (String × String))) : Bool :=
  match labels with
  | none => false
  | some l => decide (getKey l GITHUB_ORG_LABEL_REMOVE_REPOSITORY_TEAM ≠ "true")

/-! ## Organization operation executor (`githuborganization_controller.go`
lines 620-867) -/

/-- The forge side of the organization executor; each call yields an
optional error message. -/
structure OrgForge where
  changeToOwner : String → Option String
  changeToMember : String → Option String
  addTeam : String → Option String
  removeTeam : String → Option String
  repositoryTeamAdd : String → String → String → Option String
  repositoryTeamRemove : String → String → Option String

/-- A mutating forge call issued by the organization executor. -/
inductive OrgCall
  | changeToOwner (user : String)
  | changeToMember (user : String)
  | addTeam (team : String)
  | removeTeam (team : String)
  | repositoryTeamAdd (repo team permission : String)
  | repositoryTeamRemove (repo team : String)
deriving DecidableEq

/-- One step on an organization-owner operation: the rewritten operation,
whether the status changed, the assignment (if any) to the `failed` flag,
whether an owner change was applied, and the forge calls issued.  A
demote-the-last-admin error is treated as skipped with the error
preserved. -/
def execOwnerOp (labels : Option (List (String × String))) (forge : OrgForge)
    (now : Int) (op : GithubUserOperation) :
    GithubUserOperation × Bool × Option Bool × Bool × List OrgCall :=
  if op.state = .pending then
    match op.operation with
    | .add =>
      if ownerAddGateBlocked labels then
        ({ op with state := .skipped, timestamp := now }, true, some false, false, [])
      else
        match forge.changeToOwner op.user with
        | some e =>
          ({ op with state := .failed, error := e, timestamp := now },
            true, some true, false, [.changeToOwner op.user])
        | none =>
          ({ op with state := .complete, timestamp := now },
            true, none, true, [.changeToOwner op.user])
    | .remove =>
      if ownerRemoveGateBlocked labels then
        ({ op with state := .skipped, timestamp := now }, true, some false, false, [])
      else
        match forge.changeToMember op.user with
        | some e =>
          if strContains (lowerStr e) "last admin" ||
              strContains e "You can't demote the last admin to a member." then
            ({ op with state := .skipped, error := e, timestamp := now },
              true, none, false, [.changeToMember op.user])
          else
            ({ op with state := .failed, error := e, timestamp := now },
              true, some true, false, [.changeToMember op.user])
        | none =>
          ({ op with state := .complete, timestamp := now },
            true, none, true, [.changeToMember op.user])
  else (op, false, none, false, [])

/-- The owner-operations loop; the `failed` flag result is the last
assignment made along the queue. -/
def execOwnerOpsGo (labels : Option (List (String × String))) (forge : OrgForge)
    (now : Int) :
    List GithubUserOperation →
      List GithubUserOperation × Bool × Option Bool × Bool × List OrgCall
  | [] => ([], false, none, false, [])
  | op :: rest =>
    match execOwnerOp labels forge now op with
    | (op', changedHere, failedUpd, appliedHere, calls) =>
      match execOwnerOpsGo labels forge now rest with
      | (ops', changedRest, failedRest, appliedRest, callsRest) =>
        (op' :: ops', changedHere || changedRest,
          (match failedRest with
           | some b => some b
           | none => failedUpd),
          appliedHere || appliedRest, calls ++ callsRest)

/-- One step on an organization-level team operation. -/
def execOrgTeamOp (labels : Option (List (String × String))) (forge : OrgForge)
    (now : Int) (op : GithubTeamOperation) :
    GithubTeamOperation × Bool × Option Bool × List OrgCall :=
  if op.state = .pending then
    match op.operation with
    | .add =>
      if orgTeamAddGateBlocked labels then
        ({ op with state := .skipped, timestamp := now }, true, some false, [])
      else
        match forge.addTeam op.team with
        | some e =>
          ({ op with state := .failed, error := e, timestamp := now },
            true, some true, [.addTeam op.team])
        | none =>
          ({ op with state := .complete, timestamp := now },
            true, none, [.addTeam op.team])
    | .remove =>
      if orgTeamRemoveGateBlocked labels then
        ({ op with state := .skipped, timestamp := now }, true, some false, [])
      else
        match forge.removeTeam op.team with
        | some e =>
          ({ op with state := .failed, error := e, timestamp := now },
            true, some true, [.removeTeam op.team])
        | none =>
          ({ op with state := .complete, timestamp := now },
            true, none, [.removeTeam op.team])
  else (op, false, none, [])

/-- The team-operations loop. -/
def execOrgTeamOpsGo (labels : Option (List (String × String))) (forge : OrgForge)
    (now : Int) :
    List GithubTeamOperation → List GithubTeamOperation × Bool × Option Bool × List OrgCall
  | [] => ([], false, none, [])
  | op :: rest =>
    match execOrgTeamOp labels forge now op with
    | (op', changedHere, failedUpd, calls) =>
      match execOrgTeamOpsGo labels forge now rest with
      | (ops', changedRest, failedRest, callsRest) =>
        (op' :: ops', changedHere || changedRest,
          (match failedRest with
           | some b => some b
           | none => failedUpd),
          calls ++ callsRest)

/-- One step on a repository-team operation. -/
def execRepoTeamOp (labels : Option (List (String × String))) (forge : OrgForge)
    (now : Int) (op : GithubRepoTeamOperation) :
    GithubRepoTeamOperation × Bool × Option Bool × List OrgCall :=
  if op.state = .pending then
    match op.operation with
    | .add =>
      if repoTeamAddGateBlocked labels then
        ({ op with state := .skipped, timestamp := now }, true, some false, [])
      else
        match forge.repositoryTeamAdd op.repo op.team op.permission with
        | some e =>
          ({ op with state := .failed, error := e, timestamp := now },
            true, some true, [.repositoryTeamAdd op.repo op.team op.permission])
        | none =>
          ({ op with state := .complete, timestamp := now },
            true, none, [.repositoryTeamAdd op.repo op.team op.permission])
    | .remove =>
      if repoTeamRemoveGateBlocked labels then
        ({ op with state := .skipped, timestamp := now }, true, some false, [])
      else
        match forge.repositoryTeamRemove op.repo op.team with
        | some e =>
          ({ op with state := .failed, error := e, timestamp := now },
            true, some true, [.repositoryTeamRemove op.repo op.team])
        | none =>
          ({ op with state := .complete, timestamp := now },
            true, none, [.repositoryTeamRemove op.repo op.team])
  else (op, false, none, [])

/-- The repository-team-operations loop. -/
def execRepoTeamOpsGo (labels : Option (List (String × String))) (forge : OrgForge)
    (now : Int) :
    List GithubRepoTeamOperation →
      List GithubRepoTeamOperation × Bool × Option Bool × List OrgCall
  | [] => ([], false, none, [])
  | op :: rest =>
    match execRepoTeamOp labels forge now op with
    | (op', changedHere, failedUpd, calls) =>
      match execRepoTeamOpsGo labels forge now rest with
      | (ops', changedRest, failedRest, callsRest) =>
        (op' :: ops', changedHere || changedRest,
          (match failedRest with
           | some b => some b
           | none => failedUpd),
          calls ++ callsRest)

/-- The pending-operations block of the organization reconcile: run the
three loops in order (owners, teams, repository teams); the final `failed`
flag is the last assignment made across the three loops; when anything
changed, the persisted status is failed, or complete with a cleared error.
Returns (statusChanged, failed, ownerChangeApplied, new status, forge
calls). -/
def executeOrgOperations (labels : Option (List (String × String))) (forge : OrgForge)
    (now : Int) (status : GithubOrganizationStatus) :
    Bool × Bool × Bool × GithubOrganizationStatus × List OrgCall :=
  match execOwnerOpsGo labels forge now status.operations.organizationOwnerOperations with
  | (ownerOps, ch1, fa1, applied, c1) =>
    match execOrgTeamOpsGo labels forge now status.operations.githubTeamOperations with
    | (teamOps, ch2, fa2, c2) =>
      match execRepoTeamOpsGo labels forge now status.operations.repositoryTeamOperations with
      | (repoOps, ch3, fa3, c3) =>
        let changed := ch1 || ch2 || ch3
        let lastAssign :=
          match fa3 with
          | some b => some b
          | none =>
            match fa2 with
            | some b => some b
            | none => fa1
        let failed := lastAssign.getD false
        let ns0 := { status with operations :=
            { organizationOwnerOperations := ownerOps
              githubTeamOperations := teamOps
              repositoryTeamOperations := repoOps } }
        if changed then
          (true, failed, applied,
            (if failed then
              { ns0 with organizationStatus := .failed, organizationStatusTimestamp := now }
            else
              { ns0 with
                organizationStatus := .complete
                organizationStatusError := ""
                organizationStatusTimestamp := now }),
            c1 ++ c2 ++ c3)
        else (false, failed, applied, ns0, c1 ++ c2 ++ c3)

/-! ## The whole organization reconcile, projected onto the statuses it
writes (`githuborganization_controller.go` lines 41-870).

Everything outside the process — forge fetches, Kubernetes reads and the
clock — enters through an oracle record, and each syntactic block of the
reconcile becomes one step returning the statuses it writes plus either
the organization to continue with or an early return. -/

/-- Recompute the top-level organization state from the operation queues
(pending wins, then failed, else complete), as done by the rate-limit
gate, the TTL cleanups and the dry-run exit. -/
def recomputeOrgState (s : GithubOrganizationStatus) : GithubOrganizationState :=
  if orgPendingOperationsFound s then .pending
  else if orgFailedOperationsFound s then .failed
  else .complete

/-- Multiset equality of two lists (`assert.ElementsMatch`): erase one
occurrence. -/
def eraseOne {α : Type} [DecidableEq α] (a : α) : List α → Option (List α)
  | [] => none
  | b :: t => if a = b then some t else (eraseOne a t).map (b :: ·)

/-- Multiset equality of two lists (`assert.ElementsMatch`): same elements
ignoring order, respecting multiplicity. -/
def elementsMatch {α : Type} [DecidableEq α] : List α → List α → Bool
  | [], r => r.isEmpty
  | a :: t, r =>
    match eraseOne a r with
    | none => false
    | some r' => elementsMatch t r'

/-- Result of reading the `Github` resource from the store. -/
inductive GithubGetResult
  | ok
  | notFound
  | getError (e : String)
deriving DecidableEq

/-- Result of `ownersFromGithubTeams`: retry later, an error, or the
aggregated owner list. -/
inductive OwnersFromTeamsResult
  | retry
  | err (e : String)
  | ok (owners : List Member)

/-- The oracle feeding one organization reconcile: the clock, the duration
and timestamp parsers, the store reads and the forge fetches. -/
structure OrgOracle where
  parseTs : String → Option Int
  parseDuration : String → Option Int
  now : Int
  githubGet : GithubGetResult
  clientRegistered : Bool
  providersOk : Bool
  ownersForge : Except String Unit
  teamsForge : Except String (List String)
  reposForge : Except String (List GithubRepository × List GithubRepository)
  extendResult : Except Unit (List Member)
  ownersFromTeams : OwnersFromTeamsResult
  teamsFromK8s : Except String (List String)
  overridesList : Except Unit (List GithubTeamRepository)
  forge : OrgForge

/-- The rate-limit gate of the organization reconcile (lines 68-96): while
the reset instant lies in the future return early without writing; past it
clear the error, recompute the state, write and continue. -/
def orgRateLimitStep (o : OrgOracle) (org : GithubOrganization) :
    List GithubOrganizationStatus × Option GithubOrganization :=
  if org.status.organizationStatus = .ratelimited ∧
      org.status.organizationStatusError ≠ "" then
    match parseGitHubRateLimitReset o.parseTs o.now org.status.organizationStatusError with
    | some resetAt =>
      if o.now < resetAt then ([], none)
      else
        let s1 := { org.status with organizationStatusError := "" }
        let ns := { s1 with
                    organizationStatus := recomputeOrgState s1
                    organizationStatusTimestamp := o.now }
        ([ns], some { org with status := ns })
    | none => ([], some org)
  else ([], some org)

/-- Outcome of the organization rate-limit gate (lines 69-96): an early
return with a `RequeueAfter` duration, or proceeding into the remainder of
the reconcile with a (possibly rewritten) organization. -/
inductive OrgGateOutcome
  | requeue (d : Int)
  | proceed (org : GithubOrganization)
deriving DecidableEq

/-- The organization gate, in the shape of the source: when the stored
status is ratelimited with a non-empty error that parses to a reset
instant, either requeue for the remaining time `resetAt - now` (if the
reset is still in the future) or clear the error, recompute the
organization status from the operation queue, write, and proceed with the
updated organization. -/
def orgRateLimitGate (parseTs : String → Option Int) (now : Int)
    (org : GithubOrganization) : OrgGateOutcome :=
  if org.status.organizationStatus = .ratelimited ∧
      org.status.organizationStatusError ≠ "" then
    match parseGitHubRateLimitReset parseTs now org.status.organizationStatusError with
    | some resetAt =>
      if now < resetAt then .requeue (resetAt - now)
      else
        let s1 := { org.status with organizationStatusError := "" }
        let ns := { s1 with
                    organizationStatus := recomputeOrgState s1
                    organizationStatusTimestamp := now }
        .proceed { org with status := ns }
    | none => .proceed org
  else .proceed org

/-- The organization reconcile seen from its gate: the whole remainder of
`GithubOrganizationReconciler.Reconcile` (which contains every forge call
of the reconcile) is abstracted as `rest`, producing a requeue duration
and the forge calls issued.  An early return at the gate yields the
computed requeue duration and no forge call at all. -/
def orgReconcileFromGate (parseTs : String → Option Int) (now : Int)
    (org : GithubOrganization) (rest : GithubOrganization → Int × List OrgCall) :
    Int × List OrgCall :=
  match orgRateLimitGate parseTs now org with
  | .requeue d => (d, [])
  | .proceed org2 => rest org2

/-- The failed-TTL cleanup (lines 101-129): on an expired TTL over a failed
status, drop the failed operations, clear the error, recompute, write and
return. -/
def orgFailedTTLStep (o : OrgOracle) (org : GithubOrganization) :
    List GithubOrganizationStatus × Option GithubOrganization :=
  match org.labels with
  | none => ([], some org)
  | some l =>
    let ttlStr := getKey l GITHUB_ORG_LABEL_FAILED_TTL
    if ttlStr ≠ "" ∧ org.status.organizationStatus = .failed ∧
        org.status.organizationStatusTimestamp ≠ 0 then
      match o.parseDuration ttlStr with
      | none => ([], some org)
      | some d =>
        if org.status.organizationStatusTimestamp + d < o.now then
          if (CleanFailedOperations org.status).2 ∨ org.status.organizationStatusError ≠ "" then
            let ns1 := { (CleanFailedOperations org.status).1 with organizationStatusError := "" }
            let ns := { ns1 with
                        organizationStatus := recomputeOrgState ns1
                        organizationStatusTimestamp := o.now }
            ([ns], none)
          else ([], some org)
        else ([], some org)
    else ([], some org)

/-- The completed-TTL cleanup (lines 131-157): on an expired TTL, drop the
completed operations, recompute, write and return. -/
def orgCompletedTTLStep (o : OrgOracle) (org : GithubOrganization) :
    List GithubOrganizationStatus × Option GithubOrganization :=
  match org.labels with
  | none => ([], some org)
  | some l =>
    let ttlStr := getKey l GITHUB_ORG_LABEL_COMPLETED_TTL
    if ttlStr ≠ "" ∧ org.status.organizationStatusTimestamp ≠ 0 then
      match o.parseDuration ttlStr with
      | none => ([], some org)
      | some d =>
        if org.status.organizationStatusTimestamp + d < o.now then
          if (CleanCompletedOperations org.status).2 then
            let ns := { (CleanCompletedOperations org.status).1 with
                        organizationStatus :=
                          recomputeOrgState (CleanCompletedOperations org.status).1
                        organizationStatusTimestamp := o.now }
            ([ns], none)
          else ([], some org)
        else ([], some org)
    else ([], some org)

/-- Spec validation and client lookup (lines 160-245): an empty github or
organization name, a missing `Github` resource or a store error writes a
failed status and returns; an unregistered client or a provider
construction error returns without writing. -/
def orgValidationStep (o : OrgOracle) (org : GithubOrganization) :
    List GithubOrganizationStatus × Option GithubOrganization :=
  if org.spec.github = "" then
    ([{ org.status with
        organizationStatus := .failed
        organizationStatusError := "github name not provided"
        organizationStatusTimestamp := o.now }], none)
  else if org.spec.organization = "" then
    ([{ org.status with
        organizationStatus := .failed
        organizationStatusError := "organization name not provided"
        organizationStatusTimestamp := o.now }], none)
  else
    match o.githubGet with
    | .notFound =>
      ([{ org.status with
          organizationStatus := .failed
          organizationStatusError := "github not found"
          organizationStatusTimestamp := o.now }], none)
    | .getError e =>
      ([{ org.status with
          organizationStatus := .failed
          organizationStatusError := "error during getting the github: " ++ e
          organizationStatusTimestamp := o.now }], none)
    | .ok =>
      if !o.clientRegistered then ([], none)
      else if !o.providersOk then ([], none)
      else ([], some org)

/-- A failing forge fetch during the status check (lines 252-338): a
rate-limited error writes a ratelimited status, any other error a failed
status; both return. -/
def orgFetchFailWrite (o : OrgOracle) (org : GithubOrganization)
    (prefixMsg e : String) : List GithubOrganizationStatus :=
  if (parseGitHubRateLimitReset o.parseTs o.now e).isSome then
    [{ org.status with
       organizationStatus := .ratelimited
       organizationStatusError := prefixMsg ++ e
       organizationStatusTimestamp := o.now }]
  else
    [{ org.status with
       organizationStatus := .failed
       organizationStatusError := prefixMsg ++ e
       organizationStatusTimestamp := o.now }]

/-- Owner synchronisation (lines 387-434): unless both owner gates are the
label value `"false"`, aggregate the desired owners; retry-later and the
empty aggregate return silently, an error writes a failed status, and an
owner-diff change writes the calculator output. -/
def orgOwnerSyncStep (o : OrgOracle) (org : GithubOrganization) :
    Option (List GithubOrganizationStatus) :=
  let syncOrgOwners :=
    match org.labels with
    | some l =>
      !(decide (getKey l GITHUB_ORG_LABEL_ADD_ORG_OWNER = "false" ∧
        getKey l GITHUB_ORG_LABEL_REMOVE_ORG_OWNER = "false"))
    | none => true
  if syncOrgOwners then
    match o.ownersFromTeams with
    | .retry => some []
    | .err e =>
      some [{ org.status with
              organizationStatus := .failed
              organizationStatusError := "error in getting owners: " ++ e
              organizationStatusTimestamp := o.now }]
    | .ok ownersFromKubernetes =>
      if ownersFromKubernetes.length = 0 then some []
      else
        if (OwnerChangeCalculator o.now org ownersFromKubernetes).1 then
          some [(OwnerChangeCalculator o.now org ownersFromKubernetes).2]
        else none
  else none

/-- Team synchronisation (lines 438-469). -/
def orgTeamSyncStep (o : OrgOracle) (org : GithubOrganization) :
    Option (List GithubOrganizationStatus) :=
  let syncTeams :=
    match org.labels with
    | some l =>
      !(decide (getKey l GITHUB_ORG_LABEL_ADD_TEAM = "false" ∧
        getKey l GITHUB_ORG_LABEL_REMOVE_TEAM = "false"))
    | none => true
  if syncTeams then
    match o.teamsFromK8s with
    | .error e =>
      some [{ org.status with
              organizationStatus := .failed
              organizationStatusError := e
              organizationStatusTimestamp := o.now }]
    | .ok teamsFromKubernetes =>
      if (TeamChangeCalculator o.now org teamsFromKubernetes).1 then
        some [(TeamChangeCalculator o.now org teamsFromKubernetes).2]
      else none
  else none

/-- Repository synchronisation (lines 472-506): the diff runs on a
temporary copy carrying the freshly fetched repository lists; a change
writes the calculator output with the compact out-of-policy list filled in
and both repository lists cleared. -/
def orgRepoSyncStep (o : OrgOracle) (org : GithubOrganization)
    (publicRepos privateRepos : List GithubRepository) :
    Option (List GithubOrganizationStatus) :=
  let syncRepos :=
    match org.labels with
    | some l =>
      !(decide (getKey l GITHUB_ORG_LABEL_ADD_REPOSITORY_TEAM = "false" ∧
        getKey l GITHUB_ORG_LABEL_REMOVE_REPOSITORY_TEAM = "false"))
    | none => true
  if syncRepos then
    match o.overridesList with
    | .error _ => some []
    | .ok exceptions =>
      let temp := { org with status :=
          { org.status with
            privateRepositories := privateRepos
            publicRepositories := publicRepos } }
      if (RepoChangeCalculator o.now temp exceptions).1 then
        some [{ (RepoChangeCalculator o.now temp exceptions).2 with
                outOfPolicyRepositories :=
                  uniquePendingOrFailedRepoNames
                    (RepoChangeCalculator o.now temp exceptions).2.operations.repositoryTeamOperations
                publicRepositories := []
                privateRepositories := [] }]
      else none
  else none

/-- The status-check phase (lines 247-522), entered only when the status
is not pending: fetch owners, teams and repositories (failures write and
return), clear any persisted repository lists and refresh the observed
owner and team lists (a change writes and returns), then run the three
diff calculators; finally an empty status becomes complete and the
reconcile continues. -/
def orgStatusCheckStep (o : OrgOracle) (org : GithubOrganization) :
    List GithubOrganizationStatus × Option GithubOrganization :=
  if org.status.organizationStatus = .pending then ([], some org)
  else
    match o.ownersForge with
    | .error e => (orgFetchFailWrite o org "error in getting organization owners: " e, none)
    | .ok _ =>
    match o.teamsForge with
    | .error e => (orgFetchFailWrite o org "error in getting teams: " e, none)
    | .ok teamsList =>
    match o.reposForge with
    | .error e => (orgFetchFailWrite o org "error in getting teams: " e, none)
    | .ok (publicRepos, privateRepos) =>
    let upd1 := decide (0 < org.status.publicRepositories.length) ||
      decide (0 < org.status.privateRepositories.length)
    let st1 :=
      if upd1 then
        { org.status with publicRepositories := [], privateRepositories := [] }
      else org.status
    match o.extendResult with
    | .error _ => ([], none)
    | .ok ownerListExtended =>
    let m1 := elementsMatch st1.organizationOwners ownerListExtended
    let st2 := if !m1 then { st1 with organizationOwners := ownerListExtended } else st1
    let m2 := elementsMatch st2.teams teamsList
    let st3 := if !m2 then { st2 with teams := teamsList } else st2
    if upd1 || !m1 || !m2 then ([st3], none)
    else
    match orgOwnerSyncStep o org with
    | some w => (w, none)
    | none =>
    match orgTeamSyncStep o org with
    | some w => (w, none)
    | none =>
    match orgRepoSyncStep o org publicRepos privateRepos with
    | some w => (w, none)
    | none =>
      if org.status.organizationStatus = .unset then
        let ns := { org.status with
                    organizationStatus := .complete
                    organizationStatusError := ""
                    organizationStatusTimestamp := o.now }
        ([ns], some { org with status := ns })
      else ([], some org)

/-- The dry-run switch (lines 524-564): entering dry-run or leaving it
writes a status and requeues. -/
def orgDryRunStep (o : OrgOracle) (org : GithubOrganization) :
    List GithubOrganizationStatus × Option GithubOrganization :=
  match org.labels with
  | none => ([], some org)
  | some l =>
    if getKey l GITHUB_ORG_LABEL_DRY_RUN = "true" then
      if org.status.organizationStatus ≠ .dryRun then
        ([{ org.status with
            organizationStatus := .dryRun
            organizationStatusTimestamp := o.now }], none)
      else ([], some org)
    else
      if org.status.organizationStatus = .dryRun then
        let ns0 :=
          if orgPendingOperationsFound org.status then
            { org.status with organizationStatus := .pending }
          else if orgFailedOperationsFound org.status then
            { org.status with organizationStatus := .failed }
          else
            { org.status with
              organizationStatus := .complete
              organizationStatusError := "" }
        ([{ ns0 with organizationStatusTimestamp := o.now }], none)
      else ([], some org)

/-- The dry-run cleaning block (lines 566-618): while in dry-run, a
`cleanOperations` label purges the matching operations (a change writes a
status; otherwise the label is removed through a non-status update); the
reconcile always returns from this block. -/
def orgCleanStep (o : OrgOracle) (org : GithubOrganization) :
    List GithubOrganizationStatus × Option GithubOrganization :=
  if org.status.organizationStatus = .dryRun then
    if getLabel org.labels GITHUB_ORG_LABEL_CLEAN_OPERATIONS = "complete" then
      if (CleanCompletedOperations org.status).2 then
        ([{ (CleanCompletedOperations org.status).1 with
            organizationStatusTimestamp := o.now }], none)
      else ([], none)
    else if getLabel org.labels GITHUB_ORG_LABEL_CLEAN_OPERATIONS = "failed" then
      if (CleanFailedOperations org.status).2 then
        ([{ (CleanFailedOperations org.status).1 with
            organizationStatusTimestamp := o.now }], none)
      else ([], none)
    else ([], none)
  else ([], some org)

/-- The execution block (lines 620-867) as a write list. -/
def orgExecStep (o : OrgOracle) (org : GithubOrganization) :
    List GithubOrganizationStatus :=
  if org.status.organizationStatus = .pending then
    if (executeOrgOperations org.labels o.forge o.now org.status).1 then
      [(executeOrgOperations org.labels o.forge o.now org.status).2.2.2.1]
    else []
  else []

/-- Run a sequence of reconcile steps: each step emits status writes and
either stops the reconcile or hands the (possibly updated) organization to
the next step. -/
def runSteps :
    List (GithubOrganization → List GithubOrganizationStatus × Option GithubOrganization) →
      GithubOrganization → List GithubOrganizationStatus
  | [], _ => []
  | f :: fs, org =>
    match f org with
    | (w, none) => w
    | (w, some org2) => w ++ runSteps fs org2

/-- Every status written during one organization reconcile, in order: the
rate-limit gate, the two TTL cleanups, the spec validation, the status
check, the dry-run switch, the dry-run cleaning block and the execution
block. -/
def orgReconcileWrites (o : OrgOracle) (org : GithubOrganization) :
    List GithubOrganizationStatus :=
  runSteps [orgRateLimitStep o, orgFailedTTLStep o, orgCompletedTTLStep o,
    orgValidationStep o, orgStatusCheckStep o, orgDryRunStep o, orgCleanStep o,
    fun org7 => (orgExecStep o org7, none)] org

/-- A benign oracle used to evaluate whole reconciles on concrete inputs:
the clock reads zero, every store and forge read succeeds with empty data
and every mutating forge call succeeds. -/
def orgOracle0 : OrgOracle where
  parseTs := fun _ => none
  parseDuration := fun _ => none
  now := 0
  githubGet := .ok
  clientRegistered := true
  providersOk := true
  ownersForge := .ok ()
  teamsForge := .ok []
  reposForge := .ok ([], [])
  extendResult := .ok []
  ownersFromTeams := .ok []
  teamsFromK8s := .ok []
  overridesList := .ok []
  forge :=
    { changeToOwner := fun _ => none
      changeToMember := fun _ => none
      addTeam := fun _ => none
      removeTeam := fun _ => none
      repositoryTeamAdd := fun _ _ _ => none
      repositoryTeamRemove := fun _ _ => none }

/-- A freshly created organization: valid spec, zero-valued status. -/
def orgFresh : GithubOrganization :=
  { spec := { github := "g", organization := "o" } }

/-- An organization whose persisted status still carries a repository
list, as written by an old controller version. -/
def orgStale : GithubOrganization :=
  { spec := { github := "g", organization := "o" }
    status := { organizationStatus := .complete
                publicRepositories := [{ name := "r" }] } }

/-! ## Claim theorems -/

/-- C1: the claim (spec property P4) states that after the execution loop
the team status is recomputed from the terminal states, so a persisted
`complete` leaves no operation in `pending` or `failed`.  The code instead
carries a running `failed` flag that the gated-off (skipped) branches reset
to `false`: executing a queue holding a failing add for `u1` followed by a
remove for `u2` under the label `removeUser=false` persists
`teamStatus = complete` while the first operation remains `failed`.  This
theorem evaluates the embedded execution loop at that failing input. -/
theorem C1_complete_with_failed_op_eval :
    (executeTeamPendingOperations (some [(GITHUB_TEAMS_LABEL_REMOVE_USER, "false")])
        { addUser := fun _ => (true, some "boom"), removeUser := fun _ => none } "eng" 7
        { teamStatus := .pending
          operations := [{ operation := .add, user := "u1", state := .pending },
                         { operation := .remove, user := "u2", state := .pending }] }).1 = true ∧
    (executeTeamPendingOperations (some [(GITHUB_TEAMS_LABEL_REMOVE_USER, "false")])
        { addUser := fun _ => (true, some "boom"), removeUser := fun _ => none } "eng" 7
        { teamStatus := .pending
          operations := [{ operation := .add, user := "u1", state := .pending },
                         { operation := .remove, user := "u2", state := .pending }]
          }).2.1.teamStatus = .complete ∧
    (executeTeamPendingOperations (some [(GITHUB_TEAMS_LABEL_REMOVE_USER, "false")])
        { addUser := fun _ => (true, some "boom"), removeUser := fun _ => none } "eng" 7
        { teamStatus := .pending
          operations := [{ operation := .add, user := "u1", state := .pending },
                         { operation := .remove, user := "u2", state := .pending }]
          }).2.1.operations.any (fun op => decide (op.state = .failed)) = true := by
  decide

/-- C2: the claim states that an organization-owner operation is executed
only under an explicit `addOrganizationOwner=true` /
`removeOrganizationOwner=true` label and is skipped in every other label
state, including when the object carries no labels map at all.  The gate in
the code is `Labels != nil && Labels[gate] != "true"`, so with a `nil`
labels map the gate never blocks: a pending owner add on a label-less
organization issues the `ChangeToOwner` forge call and completes.  This
theorem evaluates the embedded executor at that failing input. -/
theorem C2_nil_labels_bypass_owner_gate_eval :
    (executeOrgOperations none
        { changeToOwner := fun _ => none, changeToMember := fun _ => none,
          addTeam := fun _ => none, removeTeam := fun _ => none,
          repositoryTeamAdd := fun _ _ _ => none, repositoryTeamRemove := fun _ _ => none } 3
        { organizationStatus := .pending
          operations := { organizationOwnerOperations :=
            [{ operation := .add, user := "alice", state := .pending }] } }).2.2.2.2 =
      [.changeToOwner "alice"] ∧
    (executeOrgOperations none
        { changeToOwner := fun _ => none, changeToMember := fun _ => none,
          addTeam := fun _ => none, removeTeam := fun _ => none,
          repositoryTeamAdd := fun _ _ _ => none, repositoryTeamRemove := fun _ _ => none } 3
        { organizationStatus := .pending
          operations := { organizationOwnerOperations :=
            [{ operation := .add, user := "alice", state := .pending }] }
          }).2.2.2.1.operations.organizationOwnerOperations.any
        (fun op => decide (op.state = .complete)) = true := by
  decide

/-- C3: the claim (spec §7) states that a pending add is marked notfound
exactly on a forge 404 and failed on any other error, transport errors
included.  `AddUser`'s fallback `return false, err` reports the user not
found whenever the error carries no HTTP response, and the reconciler
checks `!userFound` first, so a pure transport error is marked `notfound`
with the fixed text `user not found on GitHub` instead of `failed` with the
error stored.  This theorem evaluates the embedded provider and executor at
that failing input. -/
theorem C3_transport_error_marked_notfound_eval :
    DefaultTeamsProviderAddUser (some "connection refused") none =
      (false, some "connection refused") ∧
    (executeTeamPendingOperations none
        { addUser := fun _ => DefaultTeamsProviderAddUser (some "connection refused") none,
          removeUser := fun _ => none } "eng" 7
        { teamStatus := .pending
          operations := [{ operation := .add, user := "u1", state := .pending }]
          }).2.1.operations = [{ operation := .add
                                 user := "u1"
                                 state := .notfound
                                 error := "user not found on GitHub"
                                 timestamp := 7 }] := by
  decide

/-- C4 counterexample: for a repository whose team is configured with a
differing permission and no prior operations, the claim asserts exactly one
pending remove and one pending add for the pair; the calculator instead
enqueues two of each, because both scanning passes handle the mismatch and
deduplication consults only the prior operation queue. -/
theorem C4_counterexample :
    ((repoChangeCalculator 0 [{ team := "team-a", permission := "push" }]
        [{ name := "repo-a", teams := [{ team := "team-a", permission := "pull" }] }]
        [] [] []).filter (fun op =>
          decide (op.operation = .remove ∧ op.repo = "repo-a" ∧ op.team = "team-a" ∧
            op.state = .pending))).length = 2 ∧
    ((repoChangeCalculator 0 [{ team := "team-a", permission := "push" }]
        [{ name := "repo-a", teams := [{ team := "team-a", permission := "pull" }] }]
        [] [] []).filter (fun op =>
          decide (op.operation = .add ∧ op.repo = "repo-a" ∧ op.team = "team-a" ∧
            op.permission = "push" ∧ op.state = .pending))).length = 2 := by
  decide

/-- C4 (amended): a permission mismatch with no prior non-complete
operation for the (repo, team) pair enqueues the remove/add pair from
*each* of the two scanning passes — two pending removes and two pending
adds — because deduplication consults only the operation queue as it was
before the call; and when that queue already holds a non-complete remove
and a non-complete add for the pair, nothing is enqueued. -/
theorem C4_mismatch_enqueues_two_pairs (now : Int) (t p q r : String)
    (ops : List GithubRepoTeamOperation) :
    (p ≠ q →
      (∀ op ∈ ops, ¬(lowerStr op.team = lowerStr t ∧ op.repo = r ∧ op.state ≠ .complete)) →
      repoChangeCalculator now [{ team := t, permission := q }]
          [{ name := r, teams := [{ team := t, permission := p }] }] [] [] ops =
        [{ operation := .remove, repo := r, team := t, state := .pending, timestamp := now },
         { operation := .add
           repo := r
           team := t
           permission := q
           state := .pending
           timestamp := now },
         { operation := .remove, repo := r, team := t, state := .pending, timestamp := now },
         { operation := .add
           repo := r
           team := t
           permission := q
           state := .pending
           timestamp := now }]) ∧
    (p ≠ q →
      (∃ op ∈ ops, lowerStr op.team = lowerStr t ∧ op.repo = r ∧
        op.operation = .remove ∧ op.state ≠ .complete) →
      (∃ op ∈ ops, lowerStr op.team = lowerStr t ∧ op.repo = r ∧
        op.operation = .add ∧ op.state ≠ .complete) →
      repoChangeCalculator now [{ team := t, permission := q }]
          [{ name := r, teams := [{ team := t, permission := p }] }] [] [] ops = []) := by
  constructor
  · intro hpq hops
    have hrm : repoTeamOperationRemoveFound ops t r = false := by
      simp only [repoTeamOperationRemoveFound, List.any_eq_false, decide_eq_true_eq]
      intro op hop h
      exact hops op hop ⟨h.1, h.2.1, h.2.2.2⟩
    have hadd : repoTeamOperationAddFound ops t r = false := by
      simp only [repoTeamOperationAddFound, List.any_eq_false, decide_eq_true_eq]
      intro op hop h
      exact hops op hop ⟨h.1, h.2.1, h.2.2.2⟩
    simp [repoChangeCalculator, repoConfigPass, repoObservedPass, repoMismatchOps,
      hrm, hadd, hpq]
  · intro hpq hrmE haddE
    have hrm : repoTeamOperationRemoveFound ops t r = true := by
      simp only [repoTeamOperationRemoveFound, List.any_eq_true, decide_eq_true_eq]
      exact hrmE
    have hadd : repoTeamOperationAddFound ops t r = true := by
      simp only [repoTeamOperationAddFound, List.any_eq_true, decide_eq_true_eq]
      exact haddE
    simp [repoChangeCalculator, repoConfigPass, repoObservedPass, repoMismatchOps,
      hrm, hadd, hpq]

/-- C4 witness: the amended theorem applied at a concrete mismatch with an
empty prior queue. -/
theorem C4_mismatch_enqueues_two_pairs_witness :
    repoChangeCalculator 0 [{ team := "team-a", permission := "push" }]
        [{ name := "repo-a", teams := [{ team := "team-a", permission := "pull" }] }]
        [] [] [] =
      [{ operation := .remove, repo := "repo-a", team := "team-a", state := .pending },
       { operation := .add
         repo := "repo-a"
         team := "team-a"
         permission := "push"
         state := .pending },
       { operation := .remove, repo := "repo-a", team := "team-a", state := .pending },
       { operation := .add
         repo := "repo-a"
         team := "team-a"
         permission := "push"
         state := .pending }] :=
  (C4_mismatch_enqueues_two_pairs 0 "team-a" "pull" "push" "repo-a" []).1
    (by decide) (by simp)

/-- C9: an empty `DefaultPrivateRepositoryTeams` (respectively, a non-empty
private but empty `DefaultPublicRepositoryTeams`) makes
`RepoChangeCalculator` report a change whose status is failed with the
matching explanatory error; the returned status only rewrites the status
fields, so no repository-team operation is enqueued and repository policy
is never applied. -/
theorem C9_empty_default_repository_teams (now : Int) (g : GithubOrganization)
    (exceptions : List GithubTeamRepository) :
    (g.spec.defaultPrivateRepositoryTeams = [] →
      RepoChangeCalculator now g exceptions =
        (true, { g.status with
                 organizationStatus := .failed
                 organizationStatusError := "DefaultPrivateRepositoryTeams is empty"
                 organizationStatusTimestamp := now })) ∧
    (g.spec.defaultPrivateRepositoryTeams ≠ [] →
      g.spec.defaultPublicRepositoryTeams = [] →
      RepoChangeCalculator now g exceptions =
        (true, { g.status with
                 organizationStatus := .failed
                 organizationStatusError := "DefaultPublicRepositoryTeams is empty"
                 organizationStatusTimestamp := now })) := by
  constructor
  · intro h
    simp [RepoChangeCalculator, h]
  · intro h1 h2
    simp [RepoChangeCalculator, List.length_eq_zero, h1, h2]

/-- C9 witness: the theorem applied at two concrete organizations, one
with an empty private default list and one with only the public default
list empty. -/
theorem C9_empty_default_repository_teams_witness :
    RepoChangeCalculator 5
        ({ spec := { defaultPublicRepositoryTeams := [{ team := "t", permission := "push" }] },
           status := { organizationStatus := .complete } } : GithubOrganization) [] =
      (true, { ({ organizationStatus := .complete } : GithubOrganizationStatus) with
               organizationStatus := .failed
               organizationStatusError := "DefaultPrivateRepositoryTeams is empty"
               organizationStatusTimestamp := 5 }) ∧
    RepoChangeCalculator 5
        ({ spec := { defaultPrivateRepositoryTeams := [{ team := "t", permission := "push" }] },
           status := { organizationStatus := .complete } } : GithubOrganization) [] =
      (true, { ({ organizationStatus := .complete } : GithubOrganizationStatus) with
               organizationStatus := .failed
               organizationStatusError := "DefaultPublicRepositoryTeams is empty"
               organizationStatusTimestamp := 5 }) :=
  ⟨(C9_empty_default_repository_teams 5 _ []).1 rfl,
   (C9_empty_default_repository_teams 5 _ []).2 (by simp) rfl⟩

/-- C10: `AddTeam` treats an erroring call whose HTTP response has status
422 (team name already taken in the organization) as success and returns
no error, whatever the underlying error message is. -/
theorem C10_addTeam_422_is_success (e : String) :
    DefaultTeamsProviderAddTeam (some e) (some 422) = none := by
  simp [DefaultTeamsProviderAddTeam]

/-! ### Substring containment facts used for the parser claim -/

theorem startsWithList_iff {n s : List Char} :
    startsWithList s n = true ↔ ∃ r, s = n ++ r := by
  induction n generalizing s with
  | nil => simp [startsWithList]
  | cons b bs ih =>
    cases s with
    | nil => simp [startsWithList]
    | cons a as =>
      simp only [startsWithList, Bool.and_eq_true, decide_eq_true_eq, ih, List.cons_append,
        List.cons.injEq]
      constructor
      · rintro ⟨hab, r, hr⟩
        exact ⟨r, hab, hr⟩
      · rintro ⟨r, hab, hr⟩
        exact ⟨hab, r, hr⟩

theorem containsSub_iff {h n : List Char} :
    containsSub h n = true ↔ ∃ l r, h = l ++ n ++ r := by
  induction h with
  | nil =>
    cases n with
    | nil =>
      simp only [containsSub, List.isEmpty_nil, true_iff]
      exact ⟨[], [], rfl⟩
    | cons x xs =>
      simp [containsSub, eq_comm, List.append_eq_nil]
  | cons c t ih =>
    simp only [containsSub, Bool.or_eq_true, startsWithList_iff, ih]
    constructor
    · rintro (⟨r, hr⟩ | ⟨l, r, hlr⟩)
      · exact ⟨[], r, by simp [hr]⟩
      · exact ⟨c :: l, r, by simp [hlr]⟩
    · rintro ⟨l, r, hlr⟩
      cases l with
      | nil => exact Or.inl ⟨r, by simpa using hlr⟩
      | cons x xs =>
        rw [List.cons_append, List.cons_append, List.cons.injEq] at hlr
        exact Or.inr ⟨xs, r, hlr.2⟩

theorem containsSub_trans {a b c : List Char} (hab : containsSub a b = true)
    (hbc : containsSub b c = true) : containsSub a c = true := by
  rw [containsSub_iff] at hab hbc ⊢
  obtain ⟨l1, r1, h1⟩ := hab
  obtain ⟨l2, r2, h2⟩ := hbc
  exact ⟨l1 ++ l2, r2 ++ r1, by rw [h1, h2]; simp⟩

theorem strContains_trans {s a b : String} (h1 : strContains s a = true)
    (h2 : strContains a b = true) : strContains s b = true :=
  containsSub_trans h1 h2

/-- C7: the rate-limit parser recognises exactly what the specification
sentence describes — a string containing an invitation-rate-limit phrase
yields now plus one hour; otherwise a string containing both `rate limit`
and `until ` whose captured timestamp text parses yields that timestamp;
every other string yields no rate limit.  The equivalence holds for every
abstract layout parser and clock. -/
theorem C7_parser_matches_spec (parseTs : String → Option Int) (now : Int) (s : String) :
    parseGitHubRateLimitReset parseTs now s = rateLimitResetSpec parseTs now s := by
  by_cases hs : s = ""
  · subst hs; rfl
  · simp only [parseGitHubRateLimitReset, rateLimitResetSpec, if_neg hs]
    cases hB : strContains (lowerStr s) "invitation rate limit"
    · have hA : strContains (lowerStr s) "organization invitation rate limit" = false := by
        cases hAv : strContains (lowerStr s) "organization invitation rate limit"
        · rfl
        · rw [strContains_trans hAv (by decide)] at hB
          exact hB
      have hC :
          strContains (lowerStr s) "exceeded the organization invitation rate limit" = false := by
        cases hCv :
            strContains (lowerStr s) "exceeded the organization invitation rate limit"
        · rfl
        · rw [strContains_trans hCv (by decide)] at hB
          exact hB
      simp only [hA, hB, hC, Bool.or_self, Bool.or_false, Bool.false_or, if_false,
        Bool.false_eq_true]
      cases hR : strContains (lowerStr s) "rate limit" <;>
        cases hU : strContains (lowerStr s) "until " <;>
          simp [hR, hU] <;>
            cases hF : findUntilCapture s.data <;> simp [hF]
    · simp [hB]

/-- C6: a reconcile starting on a ratelimited status whose stored error
parses to a reset instant strictly in the future returns
`requeueAfter = resetAt - now` and issues no forge call (the early return
precedes the whole remainder of the reconcile, whatever it would do); once
the reset has passed, the error is cleared, the status is recomputed from
the operation queue, and reconciliation continues with that status.  This
holds for both resources that carry the gate: the GithubTeam reconciler
(`githubteam_controller.go` lines 87-113) and the GithubOrganization
reconciler (`githuborganization_controller.go` lines 69-96). -/
theorem C6_ratelimited_gate (parseTs : String → Option Int) (now resetAt : Int)
    (status : GithubTeamStatus) (rest : GithubTeamStatus → Int × List TeamCall)
    (org : GithubOrganization) (orgRest : GithubOrganization → Int × List OrgCall)
    (hstate : status.teamStatus = .ratelimited)
    (hparse : parseGitHubRateLimitReset parseTs now status.teamStatusError = some resetAt)
    (hostate : org.status.organizationStatus = .ratelimited)
    (hoparse : parseGitHubRateLimitReset parseTs now
      org.status.organizationStatusError = some resetAt) :
    (now < resetAt →
      teamReconcileFromGate parseTs now status rest = (resetAt - now, [])) ∧
    (resetAt ≤ now →
      teamReconcileFromGate parseTs now status rest =
        rest { status with
               teamStatusError := ""
               teamStatus :=
                 if teamPendingOperationsFound status then .pending
                 else if teamFailedOperationsFound status then .failed
                 else .complete
               teamStatusTimestamp := now }) ∧
    (now < resetAt →
      orgReconcileFromGate parseTs now org orgRest = (resetAt - now, [])) ∧
    (resetAt ≤ now →
      orgReconcileFromGate parseTs now org orgRest =
        orgRest { org with status :=
          { org.status with
            organizationStatusError := ""
            organizationStatus :=
              if orgPendingOperationsFound org.status then .pending
              else if orgFailedOperationsFound org.status then .failed
              else .complete
            organizationStatusTimestamp := now } }) := by
  have herr : status.teamStatusError ≠ "" := by
    intro contra
    rw [contra] at hparse
    simp [parseGitHubRateLimitReset] at hparse
  have hoerr : org.status.organizationStatusError ≠ "" := by
    intro contra
    rw [contra] at hoparse
    simp [parseGitHubRateLimitReset] at hoparse
  refine ⟨?_, ?_, ?_, ?_⟩
  · intro hlt
    unfold teamReconcileFromGate teamRateLimitGate
    rw [if_pos ⟨hstate, herr⟩, hparse]
    simp [hlt]
  · intro hge
    unfold teamReconcileFromGate teamRateLimitGate
    rw [if_pos ⟨hstate, herr⟩, hparse]
    simp only [not_lt.mpr hge, if_false]
    simp [teamPendingOperationsFound, teamFailedOperationsFound]
  · intro hlt
    unfold orgReconcileFromGate orgRateLimitGate
    rw [if_pos ⟨hostate, hoerr⟩, hoparse]
    simp [hlt]
  · intro hge
    unfold orgReconcileFromGate orgRateLimitGate
    rw [if_pos ⟨hostate, hoerr⟩, hoparse]
    simp only [not_lt.mpr hge, if_false]
    simp [recomputeOrgState, orgPendingOperationsFound, orgFailedOperationsFound]

/-- C6 witness: a ratelimited team status and a ratelimited organization
status whose errors are an invitation rate-limit phrase both parse to
`now + 3600`, which is in the future, so each reconcile requeues for the
remaining hour and the remainder (which would issue a forge call) never
runs. -/
theorem C6_ratelimited_gate_witness :
    teamReconcileFromGate (fun _ => none) 0
        { teamStatus := .ratelimited
          teamStatusError := "organization invitation rate limit"
          operations := [{ operation := .add, user := "u1", state := .pending }] }
        (fun _ => (99, [.addUser "eng" "u1"])) = (3600, []) ∧
    orgReconcileFromGate (fun _ => none) 0
        { status := { organizationStatus := .ratelimited
                      organizationStatusError := "organization invitation rate limit" } }
        (fun _ => (99, [.addTeam "eng"])) = (3600, []) := by
  have h := C6_ratelimited_gate (fun _ => none) 0 3600
    { teamStatus := .ratelimited
      teamStatusError := "organization invitation rate limit"
      operations := [{ operation := .add, user := "u1", state := .pending }] }
    (fun _ => (99, [.addUser "eng" "u1"]))
    { status := { organizationStatus := .ratelimited
                  organizationStatusError := "organization invitation rate limit" } }
    (fun _ => (99, [.addTeam "eng"])) rfl (by decide) rfl (by decide)
  exact ⟨h.1 (by decide), h.2.2.1 (by decide)⟩

/-! ### Facts about the `ChangeCalculator` loops -/

theorem addOperationExists_append (a b : List GithubUserOperation) (u : String) :
    addOperationExists (a ++ b) u = (addOperationExists a u || addOperationExists b u) := by
  simp [addOperationExists, List.any_append]

theorem removeOperationExists_append (a b : List GithubUserOperation) (u : String) :
    removeOperationExists (a ++ b) u =
      (removeOperationExists a u || removeOperationExists b u) := by
  simp [removeOperationExists, List.any_append]

theorem addOperationExists_congr {u v : String} (h : lowerStr u = lowerStr v)
    (ops : List GithubUserOperation) :
    addOperationExists ops u = addOperationExists ops v := by
  simp [addOperationExists, h]

theorem removeOperationExists_congr {u v : String} (h : lowerStr u = lowerStr v)
    (ops : List GithubUserOperation) :
    removeOperationExists ops u = removeOperationExists ops v := by
  simp [removeOperationExists, h]

/-- The add loop only appends, and appends only pending add operations. -/
theorem addLoop_append (now : Int) (stateMap : String → Option GithubUserOperationState)
    (members : List Member) (desired : List Member) :
    ∀ (ops : List GithubUserOperation) (changed : Bool),
      ∃ suff, (changeCalculatorAddLoop now stateMap members desired ops changed).1 =
          ops ++ suff ∧ ∀ op ∈ suff, op.operation = .add ∧ op.state = .pending := by
  induction desired with
  | nil =>
    intro ops changed
    exact ⟨[], by simp [changeCalculatorAddLoop], by simp⟩
  | cons d rest ih =>
    intro ops changed
    simp only [changeCalculatorAddLoop]
    split_ifs with h1 h2 h3
    · exact ih ops changed
    · exact ih ops changed
    · exact ih ops changed
    · obtain ⟨suff, hs, hall⟩ :=
        ih (ops ++ [{ operation := .add, user := d.githubUsername, state := .pending, timestamp := now }]) true
      refine ⟨{ operation := .add, user := d.githubUsername, state := .pending, timestamp := now } :: suff, ?_, ?_⟩
      · rw [hs]
        simp
      · intro op hop
        rcases List.mem_cons.mp hop with h | h
        · subst h
          exact ⟨rfl, rfl⟩
        · exact hall op h

/-- The remove loop only appends, and appends only pending remove
operations. -/
theorem removeLoop_append (now : Int) (desired : List Member) (current : List Member) :
    ∀ (ops : List GithubUserOperation) (changed : Bool),
      ∃ suff, (changeCalculatorRemoveLoop now desired current ops changed).1 =
          ops ++ suff ∧ ∀ op ∈ suff, op.operation = .remove ∧ op.state = .pending := by
  induction current with
  | nil =>
    intro ops changed
    exact ⟨[], by simp [changeCalculatorRemoveLoop], by simp⟩
  | cons c rest ih =>
    intro ops changed
    simp only [changeCalculatorRemoveLoop]
    split_ifs with h1 h2
    · exact ih ops changed
    · exact ih ops changed
    · obtain ⟨suff, hs, hall⟩ :=
        ih (ops ++ [{ operation := .remove, user := c.githubUsername, state := .pending, timestamp := now }]) true
      refine ⟨{ operation := .remove, user := c.githubUsername, state := .pending, timestamp := now } :: suff, ?_, ?_⟩
      · rw [hs]
        simp
      · intro op hop
        rcases List.mem_cons.mp hop with h | h
        · subst h
          exact ⟨rfl, rfl⟩
        · exact hall op h

/-- An existing matching add operation survives the add loop. -/
theorem addLoop_existsMono (now : Int) (stateMap : String → Option GithubUserOperationState)
    (members desired : List Member) (ops : List GithubUserOperation) (changed : Bool)
    (u : String) (h : addOperationExists ops u = true) :
    addOperationExists (changeCalculatorAddLoop now stateMap members desired ops changed).1
      u = true := by
  obtain ⟨suff, hs, -⟩ := addLoop_append now stateMap members desired ops changed
  rw [hs, addOperationExists_append, h]
  rfl

/-- An existing matching remove operation survives the remove loop. -/
theorem removeLoop_existsMono (now : Int) (desired current : List Member)
    (ops : List GithubUserOperation) (changed : Bool) (u : String)
    (h : removeOperationExists ops u = true) :
    removeOperationExists (changeCalculatorRemoveLoop now desired current ops changed).1
      u = true := by
  obtain ⟨suff, hs, -⟩ := removeLoop_append now desired current ops changed
  rw [hs, removeOperationExists_append, h]
  rfl

/-- When the queue already holds an add operation for the user in a
deduplicating state, the add loop appends no further operation for that
user: the add operations for the user are left exactly as they were. -/
theorem addLoop_filter_stable (now : Int)
    (stateMap : String → Option GithubUserOperationState) (members : List Member)
    (u : String) (desired : List Member) :
    ∀ (ops : List GithubUserOperation) (changed : Bool),
      addOperationExists ops u = true →
      ((changeCalculatorAddLoop now stateMap members desired ops changed).1).filter
          (fun op => decide (lowerStr op.user = lowerStr u ∧ op.operation = .add)) =
        ops.filter (fun op => decide (lowerStr op.user = lowerStr u ∧ op.operation = .add)) := by
  induction desired with
  | nil =>
    intro ops changed _
    simp [changeCalculatorAddLoop]
  | cons d rest ih =>
    intro ops changed h
    simp only [changeCalculatorAddLoop]
    split_ifs with h1 h2 h3
    · exact ih ops changed h
    · exact ih ops changed h
    · exact ih ops changed h
    · have hlu : lowerStr d.githubUsername ≠ lowerStr u := by
        intro he
        rw [addOperationExists_congr he ops] at h3
        exact h3 h
      have hmono : addOperationExists
          (ops ++ [{ operation := .add, user := d.githubUsername, state := .pending, timestamp := now }]) u = true := by
        rw [addOperationExists_append, h]
        rfl
      rw [ih _ true hmono, List.filter_append]
      have : ([{ operation := .add, user := d.githubUsername, state := .pending, timestamp := now }] : List GithubUserOperation).filter
          (fun op => decide (lowerStr op.user = lowerStr u ∧ op.operation = .add)) = [] := by
        simp [hlu]
      rw [this, List.append_nil]

/-- When the queue already holds a remove operation for the user in a
deduplicating state, the remove loop appends no further operation for that
user. -/
theorem removeLoop_filter_stable (now : Int) (desired : List Member) (u : String)
    (current : List Member) :
    ∀ (ops : List GithubUserOperation) (changed : Bool),
      removeOperationExists ops u = true →
      ((changeCalculatorRemoveLoop now desired current ops changed).1).filter
          (fun op => decide (lowerStr op.user = lowerStr u ∧ op.operation = .remove)) =
        ops.filter
          (fun op => decide (lowerStr op.user = lowerStr u ∧ op.operation = .remove)) := by
  induction current with
  | nil =>
    intro ops changed _
    simp [changeCalculatorRemoveLoop]
  | cons c rest ih =>
    intro ops changed h
    simp only [changeCalculatorRemoveLoop]
    split_ifs with h1 h2
    · exact ih ops changed h
    · exact ih ops changed h
    · have hlu : lowerStr c.githubUsername ≠ lowerStr u := by
        intro he
        rw [removeOperationExists_congr he ops] at h2
        exact h2 h
      have hmono : removeOperationExists
          (ops ++ [{ operation := .remove, user := c.githubUsername, state := .pending, timestamp := now }]) u = true := by
        rw [removeOperationExists_append, h]
        rfl
      rw [ih _ true hmono, List.filter_append]
      have : ([{ operation := .remove, user := c.githubUsername, state := .pending, timestamp := now }] : List GithubUserOperation).filter
          (fun op => decide (lowerStr op.user = lowerStr u ∧ op.operation = .remove)) = [] := by
        simp [hlu]
      rw [this, List.append_nil]

/-- A desired member who is not skipped by the notfound map, not already a
member and therefore subject to the dedup test ends up with a matching add
operation in the loop result. -/
theorem addLoop_adds (now : Int) (stateMap : String → Option GithubUserOperationState)
    (members : List Member) (desired : List Member) :
    ∀ (ops : List GithubUserOperation) (changed : Bool) (d : Member), d ∈ desired →
      stateMap (lowerStr d.githubUsername) ≠ some .notfound →
      members.any (fun m => decide (lowerStr m.githubUsername = lowerStr d.githubUsername)) =
        false →
      addOperationExists (changeCalculatorAddLoop now stateMap members desired ops changed).1
        d.githubUsername = true := by
  induction desired with
  | nil =>
    intro ops changed d hd
    simp at hd
  | cons dHead rest ih =>
    intro ops changed d hd hnf hmem
    rcases List.mem_cons.mp hd with rfl | hd'
    · simp only [changeCalculatorAddLoop]
      split_ifs with h1 h2 h3
      · exact absurd h1 hnf
      · rw [hmem] at h2
        exact absurd h2 (by simp)
      · exact addLoop_existsMono now stateMap members rest ops changed _ h3
      · apply addLoop_existsMono
        rw [addOperationExists_append]
        have : addOperationExists [{ operation := .add, user := d.githubUsername, state := .pending, timestamp := now }] d.githubUsername = true := by
          simp [addOperationExists]
        rw [this]
        simp
    · simp only [changeCalculatorAddLoop]
      split_ifs <;> exact ih _ _ d hd' hnf hmem

/-- A current member no longer desired and subject to the dedup test ends
up with a matching remove operation in the loop result. -/
theorem removeLoop_adds (now : Int) (desired : List Member) (current : List Member) :
    ∀ (ops : List GithubUserOperation) (changed : Bool) (c : Member), c ∈ current →
      desired.any (fun m => decide (lowerStr m.githubUsername = lowerStr c.githubUsername)) =
        false →
      removeOperationExists (changeCalculatorRemoveLoop now desired current ops changed).1
        c.githubUsername = true := by
  induction current with
  | nil =>
    intro ops changed c hc
    simp at hc
  | cons cHead rest ih =>
    intro ops changed c hc hmem
    rcases List.mem_cons.mp hc with rfl | hc'
    · simp only [changeCalculatorRemoveLoop]
      split_ifs with h1 h2
      · rw [hmem] at h1
        exact absurd h1 (by simp)
      · exact removeLoop_existsMono now desired rest ops changed _ h2
      · apply removeLoop_existsMono
        rw [removeOperationExists_append]
        have : removeOperationExists [{ operation := .remove, user := c.githubUsername, state := .pending, timestamp := now }] c.githubUsername = true := by
          simp [removeOperationExists]
        rw [this]
        simp
    · simp only [changeCalculatorRemoveLoop]
      split_ifs <;> exact ih _ _ c hc' hmem

/-- The operation queue produced by `ChangeCalculator` is the remove loop
applied to the add loop's output, whether or not anything changed. -/
theorem ChangeCalculator_operations (now : Int) (status : GithubTeamStatus)
    (desired : List Member) :
    (ChangeCalculator now status desired).2.operations =
      (changeCalculatorRemoveLoop now desired status.members
        (changeCalculatorAddLoop now (buildUserOperationStateMap status.operations)
          status.members desired status.operations false).1
        (changeCalculatorAddLoop now (buildUserOperationStateMap status.operations)
          status.members desired status.operations false).2).1 := by
  simp only [ChangeCalculator]
  split <;> rfl

/-- A notfound verdict of the user-operation state map comes from some
operation of the queue for that (lower-cased) login. -/
theorem stateMap_notfound {ops : List GithubUserOperation} {key : String}
    (h : buildUserOperationStateMap ops key = some .notfound) :
    ∃ op ∈ ops, lowerStr op.user = key ∧ op.state = .notfound := by
  simp only [buildUserOperationStateMap, Option.map_eq_some'] at h
  obtain ⟨op, hfind, hstate⟩ := h
  refine ⟨op, ?_, ?_, hstate⟩
  · exact List.mem_reverse.mp (List.mem_of_find?_eq_some hfind)
  · simpa using List.find?_some hfind

/-- C5: the membership diff of `GithubTeam.ChangeCalculator`.  (a) A
desired member not among the observed members gains a pending add
operation unless an operation for the same login (case-insensitively) of
kind add already sits in pending, complete, skipped or notfound — or the
login already carries a notfound operation, which never re-queues an add.
(b)/(c) An existing add operation in one of those four states (in
particular a notfound one) suppresses any new add operation for that
login.  (d) An observed member no longer desired gains a pending remove
operation unless a remove operation for the login is already pending,
complete or skipped, and (e) such an existing remove operation suppresses
any new remove operation for the login. -/
theorem C5_change_calculator_diff (now : Int) (status : GithubTeamStatus)
    (desired : List Member) :
    (∀ d ∈ desired,
      (∀ m ∈ status.members, lowerStr m.githubUsername ≠ lowerStr d.githubUsername) →
      (∀ op ∈ status.operations, lowerStr op.user = lowerStr d.githubUsername →
        ¬(op.operation = .add ∧ (op.state = .pending ∨ op.state = .complete ∨
          op.state = .skipped ∨ op.state = .notfound))) →
      (∀ op ∈ status.operations, lowerStr op.user = lowerStr d.githubUsername →
        op.state ≠ .notfound) →
      ∃ op ∈ (ChangeCalculator now status desired).2.operations,
        lowerStr op.user = lowerStr d.githubUsername ∧ op.operation = .add ∧
          op.state = .pending) ∧
    (∀ u : String,
      (∃ op ∈ status.operations, lowerStr op.user = lowerStr u ∧ op.operation = .add ∧
        (op.state = .pending ∨ op.state = .complete ∨ op.state = .skipped ∨
          op.state = .notfound)) →
      ((ChangeCalculator now status desired).2.operations).filter
          (fun op => decide (lowerStr op.user = lowerStr u ∧ op.operation = .add)) =
        status.operations.filter
          (fun op => decide (lowerStr op.user = lowerStr u ∧ op.operation = .add))) ∧
    (∀ u : String,
      (∃ op ∈ status.operations, lowerStr op.user = lowerStr u ∧ op.operation = .add ∧
        op.state = .notfound) →
      ((ChangeCalculator now status desired).2.operations).filter
          (fun op => decide (lowerStr op.user = lowerStr u ∧ op.operation = .add)) =
        status.operations.filter
          (fun op => decide (lowerStr op.user = lowerStr u ∧ op.operation = .add))) ∧
    (∀ c ∈ status.members,
      (∀ m ∈ desired, lowerStr m.githubUsername ≠ lowerStr c.githubUsername) →
      (∀ op ∈ status.operations, lowerStr op.user = lowerStr c.githubUsername →
        ¬(op.operation = .remove ∧ (op.state = .pending ∨ op.state = .complete ∨
          op.state = .skipped))) →
      ∃ op ∈ (ChangeCalculator now status desired).2.operations,
        lowerStr op.user = lowerStr c.githubUsername ∧ op.operation = .remove ∧
          op.state = .pending) ∧
    (∀ u : String,
      (∃ op ∈ status.operations, lowerStr op.user = lowerStr u ∧ op.operation = .remove ∧
        (op.state = .pending ∨ op.state = .complete ∨ op.state = .skipped)) →
      ((ChangeCalculator now status desired).2.operations).filter
          (fun op => decide (lowerStr op.user = lowerStr u ∧ op.operation = .remove)) =
        status.operations.filter
          (fun op => decide (lowerStr op.user = lowerStr u ∧ op.operation = .remove))) := by
  have CCops := ChangeCalculator_operations now status desired
  set sm := buildUserOperationStateMap status.operations with hsm
  set r1 := changeCalculatorAddLoop now sm status.members desired status.operations false
    with hr1
  obtain ⟨suff1, hops1, hall1⟩ :=
    addLoop_append now sm status.members desired status.operations false
  obtain ⟨suff2, hops2, hall2⟩ := removeLoop_append now desired status.members r1.1 r1.2
  refine ⟨?_, ?_, ?_, ?_, ?_⟩
  · -- (a) adds appended
    intro d hd hmem hops hnf3
    have hmem' : (status.members.any
        (fun m => decide (lowerStr m.githubUsername = lowerStr d.githubUsername))) = false := by
      simp only [List.any_eq_false, decide_eq_true_eq]
      exact hmem
    have hded : addOperationExists status.operations d.githubUsername = false := by
      simp only [addOperationExists, List.any_eq_false, decide_eq_true_eq]
      intro op hop h
      exact hops op hop h.1 h.2
    have hnf : sm (lowerStr d.githubUsername) ≠ some .notfound := by
      intro h
      obtain ⟨op, hop, hl, hs⟩ := stateMap_notfound h
      exact hnf3 op hop hl hs
    have h1 := addLoop_adds now sm status.members desired status.operations false d hd hnf hmem'
    rw [← hr1] at h1
    simp only [addOperationExists, List.any_eq_true, decide_eq_true_eq] at h1
    obtain ⟨op, hop1, hl, ha, hs4⟩ := h1
    have hpend : op.state = .pending := by
      rw [hops1] at hop1
      rcases List.mem_append.mp hop1 with hin | hin
      · exfalso
        have := hded
        simp only [addOperationExists, List.any_eq_false, decide_eq_true_eq] at this
        exact this op hin ⟨hl, ha, hs4⟩
      · exact (hall1 op hin).2
    refine ⟨op, ?_, hl, ha, hpend⟩
    rw [CCops, hops2]
    exact List.mem_append_left _ hop1
  · -- (b) existing add in a dedup state suppresses new adds
    intro u hex
    have hb : addOperationExists status.operations u = true := by
      simp only [addOperationExists, List.any_eq_true, decide_eq_true_eq]
      exact hex
    rw [CCops, hops2, List.filter_append]
    have hsuffix2 : suff2.filter
        (fun op => decide (lowerStr op.user = lowerStr u ∧ op.operation = .add)) = [] := by
      rw [List.filter_eq_nil]
      intro op hop
      simp [(hall2 op hop).1]
    rw [hsuffix2, List.append_nil]
    exact addLoop_filter_stable now sm status.members u desired status.operations false hb
  · -- (c) notfound is never re-queued for add
    intro u hex
    obtain ⟨op, hop, hl, ha, hs⟩ := hex
    have hb : addOperationExists status.operations u = true := by
      simp only [addOperationExists, List.any_eq_true, decide_eq_true_eq]
      exact ⟨op, hop, hl, ha, Or.inr (Or.inr (Or.inr hs))⟩
    rw [CCops, hops2, List.filter_append]
    have hsuffix2 : suff2.filter
        (fun op => decide (lowerStr op.user = lowerStr u ∧ op.operation = .add)) = [] := by
      rw [List.filter_eq_nil]
      intro op2 hop2
      simp [(hall2 op2 hop2).1]
    rw [hsuffix2, List.append_nil]
    exact addLoop_filter_stable now sm status.members u desired status.operations false hb
  · -- (d) removes appended
    intro c hc hmem hops
    have hmem' : (desired.any
        (fun m => decide (lowerStr m.githubUsername = lowerStr c.githubUsername))) = false := by
      simp only [List.any_eq_false, decide_eq_true_eq]
      exact hmem
    have hded : removeOperationExists status.operations c.githubUsername = false := by
      simp only [removeOperationExists, List.any_eq_false, decide_eq_true_eq]
      intro op hop h
      exact hops op hop h.1 h.2
    have h1 := removeLoop_adds now desired status.members r1.1 r1.2 c hc hmem'
    simp only [removeOperationExists, List.any_eq_true, decide_eq_true_eq] at h1
    obtain ⟨op, hop2, hl, hrm, hs3⟩ := h1
    have hpend : op.state = .pending := by
      rw [hops2] at hop2
      rcases List.mem_append.mp hop2 with hin | hin
      · rw [hops1] at hin
        rcases List.mem_append.mp hin with hin1 | hin1
        · exfalso
          have := hded
          simp only [removeOperationExists, List.any_eq_false, decide_eq_true_eq] at this
          exact this op hin1 ⟨hl, hrm, hs3⟩
        · exact absurd ((hall1 op hin1).1) (by simp [hrm])
      · exact (hall2 op hin).2
    refine ⟨op, ?_, hl, hrm, hpend⟩
    rw [CCops]
    exact hop2
  · -- (e) existing remove in a dedup state suppresses new removes
    intro u hex
    have hb : removeOperationExists status.operations u = true := by
      simp only [removeOperationExists, List.any_eq_true, decide_eq_true_eq]
      exact hex
    have hb1 : removeOperationExists r1.1 u = true := by
      rw [hops1, removeOperationExists_append, hb]
      rfl
    rw [CCops]
    rw [removeLoop_filter_stable now desired u status.members r1.1 r1.2 hb1]
    rw [hops1, List.filter_append]
    have hsuffix1 : suff1.filter
        (fun op => decide (lowerStr op.user = lowerStr u ∧ op.operation = .remove)) = [] := by
      rw [List.filter_eq_nil]
      intro op hop
      simp [(hall1 op hop).1]
    rw [hsuffix1, List.append_nil]

/-- C5 witness: the theorem applied at a concrete status and desired list:
`U1` (desired, unseen, untracked) gains a pending add; `u2` keeps its
notfound add untouched despite being desired again; `U3` (observed, no
longer desired) gains a pending remove. -/
theorem C5_change_calculator_diff_witness :
    (∃ op ∈ (ChangeCalculator 4
        { members := [{ greenhouseID := "G3", githubUsername := "U3" }]
          operations := [{ operation := .add, user := "u2", state := .notfound }] }
        [{ greenhouseID := "G1", githubUsername := "U1" },
         { greenhouseID := "G2", githubUsername := "u2" }]).2.operations,
      lowerStr op.user = lowerStr "U1" ∧ op.operation = .add ∧ op.state = .pending) ∧
    ((ChangeCalculator 4
        { members := [{ greenhouseID := "G3", githubUsername := "U3" }]
          operations := [{ operation := .add, user := "u2", state := .notfound }] }
        [{ greenhouseID := "G1", githubUsername := "U1" },
         { greenhouseID := "G2", githubUsername := "u2" }]).2.operations).filter
        (fun op => decide (lowerStr op.user = lowerStr "u2" ∧ op.operation = .add)) =
      [{ operation := .add, user := "u2", state := .notfound }] ∧
    (∃ op ∈ (ChangeCalculator 4
        { members := [{ greenhouseID := "G3", githubUsername := "U3" }]
          operations := [{ operation := .add, user := "u2", state := .notfound }] }
        [{ greenhouseID := "G1", githubUsername := "U1" },
         { greenhouseID := "G2", githubUsername := "u2" }]).2.operations,
      lowerStr op.user = lowerStr "U3" ∧ op.operation = .remove ∧ op.state = .pending) := by
  have h := C5_change_calculator_diff 4
    { members := [{ greenhouseID := "G3", githubUsername := "U3" }]
      operations := [{ operation := .add, user := "u2", state := .notfound }] }
    [{ greenhouseID := "G1", githubUsername := "U1" },
     { greenhouseID := "G2", githubUsername := "u2" }]
  refine ⟨?_, ?_, ?_⟩
  · exact h.1 { greenhouseID := "G1", githubUsername := "U1" } (by decide) (by decide)
      (by decide) (by decide)
  · have := h.2.2.1 "u2"
      ⟨{ operation := .add, user := "u2", state := .notfound }, by decide, by decide⟩
    rw [this]
    decide
  · exact h.2.2.2.1 { greenhouseID := "G3", githubUsername := "U3" } (by decide) (by decide)
      (by decide)

/-! ### Preservation of empty repository lists across the organization
reconcile -/

/-- Both repository lists of a status are empty. -/
def emptyRepoLists (s : GithubOrganizationStatus) : Prop :=
  s.publicRepositories = [] ∧ s.privateRepositories = []

theorem CleanCompletedOperations_lists (s : GithubOrganizationStatus) :
    ((CleanCompletedOperations s).1).publicRepositories = s.publicRepositories ∧
    ((CleanCompletedOperations s).1).privateRepositories = s.privateRepositories := by
  constructor <;> rfl

theorem CleanFailedOperations_lists (s : GithubOrganizationStatus) :
    ((CleanFailedOperations s).1).publicRepositories = s.publicRepositories ∧
    ((CleanFailedOperations s).1).privateRepositories = s.privateRepositories := by
  constructor <;> rfl

theorem OwnerChangeCalculator_lists (now : Int) (g : GithubOrganization)
    (owners : List Member) :
    ((OwnerChangeCalculator now g owners).2).publicRepositories =
      g.status.publicRepositories ∧
    ((OwnerChangeCalculator now g owners).2).privateRepositories =
      g.status.privateRepositories := by
  simp only [OwnerChangeCalculator]
  split <;> exact ⟨rfl, rfl⟩

theorem TeamChangeCalculator_lists (now : Int) (g : GithubOrganization)
    (teams : List String) :
    ((TeamChangeCalculator now g teams).2).publicRepositories =
      g.status.publicRepositories ∧
    ((TeamChangeCalculator now g teams).2).privateRepositories =
      g.status.privateRepositories := by
  simp only [TeamChangeCalculator]
  split <;> exact ⟨rfl, rfl⟩

theorem executeOrgOperations_lists (labels : Option (List (String × String)))
    (forge : OrgForge) (now : Int) (s : GithubOrganizationStatus) :
    ((executeOrgOperations labels forge now s).2.2.2.1).publicRepositories =
      s.publicRepositories ∧
    ((executeOrgOperations labels forge now s).2.2.2.1).privateRepositories =
      s.privateRepositories := by
  simp only [executeOrgOperations]
  repeat' split
  all_goals exact ⟨rfl, rfl⟩

theorem orgRateLimitStep_preserves (o : OrgOracle) (org : GithubOrganization)
    (h : emptyRepoLists org.status) :
    (∀ w ∈ (orgRateLimitStep o org).1, emptyRepoLists w) ∧
    (∀ org2, (orgRateLimitStep o org).2 = some org2 → emptyRepoLists org2.status) := by
  unfold orgRateLimitStep
  split
  · split
    · split
      · simp
      · constructor
        · intro w hw
          simp only [List.mem_singleton] at hw
          subst hw
          exact h
        · intro org2 h2
          simp only [Option.some.injEq] at h2
          subst h2
          exact h
    · constructor
      · simp
      · intro org2 h2
        simp only [Option.some.injEq] at h2
        subst h2
        exact h
  · constructor
    · simp
    · intro org2 h2
      simp only [Option.some.injEq] at h2
      subst h2
      exact h

theorem orgFailedTTLStep_preserves (o : OrgOracle) (org : GithubOrganization)
    (h : emptyRepoLists org.status) :
    (∀ w ∈ (orgFailedTTLStep o org).1, emptyRepoLists w) ∧
    (∀ org2, (orgFailedTTLStep o org).2 = some org2 → emptyRepoLists org2.status) := by
  have hcl := CleanFailedOperations_lists org.status
  constructor
  · intro w hw
    unfold orgFailedTTLStep at hw
    repeat' split at hw
    all_goals try simp_all [emptyRepoLists]
    all_goals repeat' split at hw
    all_goals simp_all [emptyRepoLists]
  · intro org2 h2
    unfold orgFailedTTLStep at h2
    repeat' split at h2
    all_goals try simp_all [emptyRepoLists]
    all_goals repeat' split at h2
    all_goals simp_all [emptyRepoLists]

theorem OwnerChangeCalculator_public (now : Int) (g : GithubOrganization)
    (owners : List Member) :
    ((OwnerChangeCalculator now g owners).2).publicRepositories =
      g.status.publicRepositories :=
  (OwnerChangeCalculator_lists now g owners).1

theorem OwnerChangeCalculator_private (now : Int) (g : GithubOrganization)
    (owners : List Member) :
    ((OwnerChangeCalculator now g owners).2).privateRepositories =
      g.status.privateRepositories :=
  (OwnerChangeCalculator_lists now g owners).2

theorem TeamChangeCalculator_public (now : Int) (g : GithubOrganization)
    (teams : List String) :
    ((TeamChangeCalculator now g teams).2).publicRepositories =
      g.status.publicRepositories :=
  (TeamChangeCalculator_lists now g teams).1

theorem TeamChangeCalculator_private (now : Int) (g : GithubOrganization)
    (teams : List String) :
    ((TeamChangeCalculator now g teams).2).privateRepositories =
      g.status.privateRepositories :=
  (TeamChangeCalculator_lists now g teams).2

theorem executeOrgOperations_public (labels : Option (List (String × String)))
    (forge : OrgForge) (now : Int) (s : GithubOrganizationStatus) :
    ((executeOrgOperations labels forge now s).2.2.2.1).publicRepositories =
      s.publicRepositories :=
  (executeOrgOperations_lists labels forge now s).1

theorem executeOrgOperations_private (labels : Option (List (String × String)))
    (forge : OrgForge) (now : Int) (s : GithubOrganizationStatus) :
    ((executeOrgOperations labels forge now s).2.2.2.1).privateRepositories =
      s.privateRepositories :=
  (executeOrgOperations_lists labels forge now s).2

theorem orgCompletedTTLStep_preserves (o : OrgOracle) (org : GithubOrganization)
    (h : emptyRepoLists org.status) :
    (∀ w ∈ (orgCompletedTTLStep o org).1, emptyRepoLists w) ∧
    (∀ org2, (orgCompletedTTLStep o org).2 = some org2 → emptyRepoLists org2.status) := by
  have hcl := CleanCompletedOperations_lists org.status
  constructor
  · intro w hw
    unfold orgCompletedTTLStep at hw
    repeat' split at hw
    all_goals try simp_all [emptyRepoLists]
    all_goals repeat' split at hw
    all_goals simp_all [emptyRepoLists]
  · intro org2 h2
    unfold orgCompletedTTLStep at h2
    repeat' split at h2
    all_goals try simp_all [emptyRepoLists]
    all_goals repeat' split at h2
    all_goals simp_all [emptyRepoLists]

theorem orgValidationStep_preserves (o : OrgOracle) (org : GithubOrganization)
    (h : emptyRepoLists org.status) :
    (∀ w ∈ (orgValidationStep o org).1, emptyRepoLists w) ∧
    (∀ org2, (orgValidationStep o org).2 = some org2 → emptyRepoLists org2.status) := by
  constructor
  · intro w hw
    unfold orgValidationStep at hw
    repeat' split at hw
    all_goals try simp_all [emptyRepoLists]
    all_goals repeat' split at hw
    all_goals simp_all [emptyRepoLists]
  · intro org2 h2
    unfold orgValidationStep at h2
    repeat' split at h2
    all_goals try simp_all [emptyRepoLists]
    all_goals repeat' split at h2
    all_goals simp_all [emptyRepoLists]

theorem orgFetchFailWrite_preserves (o : OrgOracle) (org : GithubOrganization)
    (p e : String) (h : emptyRepoLists org.status) :
    ∀ w ∈ orgFetchFailWrite o org p e, emptyRepoLists w := by
  intro w hw
  unfold orgFetchFailWrite at hw
  repeat' split at hw
  all_goals simp_all [emptyRepoLists]

theorem orgOwnerSyncStep_preserves (o : OrgOracle) (org : GithubOrganization)
    (h : emptyRepoLists org.status) :
    ∀ ws, orgOwnerSyncStep o org = some ws → ∀ w ∈ ws, emptyRepoLists w := by
  intro ws hws w hw
  unfold orgOwnerSyncStep at hws
  repeat' split at hws
  all_goals try simp_all [emptyRepoLists]
  all_goals try (obtain ⟨-, hlist⟩ := hws; subst hlist)
  all_goals try subst hws
  all_goals simp only [List.mem_singleton] at hw
  all_goals subst hw
  all_goals exact ⟨by first | rfl | (rw [OwnerChangeCalculator_public]; exact h.1),
    by first | rfl | (rw [OwnerChangeCalculator_private]; exact h.2)⟩

theorem orgTeamSyncStep_preserves (o : OrgOracle) (org : GithubOrganization)
    (h : emptyRepoLists org.status) :
    ∀ ws, orgTeamSyncStep o org = some ws → ∀ w ∈ ws, emptyRepoLists w := by
  intro ws hws w hw
  unfold orgTeamSyncStep at hws
  repeat' split at hws
  all_goals try simp_all [emptyRepoLists]
  all_goals try (obtain ⟨-, hlist⟩ := hws; subst hlist)
  all_goals try subst hws
  all_goals simp only [List.mem_singleton] at hw
  all_goals subst hw
  all_goals exact ⟨by first | rfl | (rw [TeamChangeCalculator_public]; exact h.1),
    by first | rfl | (rw [TeamChangeCalculator_private]; exact h.2)⟩

/-- Every status the repository synchronisation writes has empty
repository lists and carries exactly the compact set of distinct
repository names with a pending or failed repo-team operation. -/
theorem orgRepoSyncStep_writes (o : OrgOracle) (org : GithubOrganization)
    (publicRepos privateRepos : List GithubRepository) :
    ∀ ws, orgRepoSyncStep o org publicRepos privateRepos = some ws → ∀ w ∈ ws,
      w.publicRepositories = [] ∧ w.privateRepositories = [] ∧
      w.outOfPolicyRepositories =
        uniquePendingOrFailedRepoNames w.operations.repositoryTeamOperations := by
  intro ws hws w hw
  unfold orgRepoSyncStep at hws
  repeat' split at hws
  all_goals try simp_all
  all_goals try (obtain ⟨-, -, hlist⟩ := hws; subst hlist)
  all_goals try (obtain ⟨-, hlist⟩ := hws; subst hlist)
  all_goals try subst hws
  all_goals simp only [List.mem_singleton] at hw
  all_goals subst hw
  all_goals exact ⟨rfl, rfl, rfl⟩

theorem orgDryRunStep_preserves (o : OrgOracle) (org : GithubOrganization)
    (h : emptyRepoLists org.status) :
    (∀ w ∈ (orgDryRunStep o org).1, emptyRepoLists w) ∧
    (∀ org2, (orgDryRunStep o org).2 = some org2 → emptyRepoLists org2.status) := by
  constructor
  · intro w hw
    unfold orgDryRunStep at hw
    repeat' split at hw
    all_goals try simp_all [emptyRepoLists]
    all_goals repeat' split at hw
    all_goals simp_all [emptyRepoLists]
  · intro org2 h2
    unfold orgDryRunStep at h2
    repeat' split at h2
    all_goals try simp_all [emptyRepoLists]
    all_goals repeat' split at h2
    all_goals simp_all [emptyRepoLists]

theorem orgCleanStep_preserves (o : OrgOracle) (org : GithubOrganization)
    (h : emptyRepoLists org.status) :
    (∀ w ∈ (orgCleanStep o org).1, emptyRepoLists w) ∧
    (∀ org2, (orgCleanStep o org).2 = some org2 → emptyRepoLists org2.status) := by
  have hcl := CleanCompletedOperations_lists org.status
  have hcf := CleanFailedOperations_lists org.status
  constructor
  · intro w hw
    unfold orgCleanStep at hw
    repeat' split at hw
    all_goals try simp_all [emptyRepoLists]
    all_goals repeat' split at hw
    all_goals simp_all [emptyRepoLists]
  · intro org2 h2
    unfold orgCleanStep at h2
    repeat' split at h2
    all_goals try simp_all [emptyRepoLists]
    all_goals repeat' split at h2
    all_goals simp_all [emptyRepoLists]

theorem orgExecStep_preserves (o : OrgOracle) (org : GithubOrganization)
    (h : emptyRepoLists org.status) :
    ∀ w ∈ orgExecStep o org, emptyRepoLists w := by
  intro w hw
  unfold orgExecStep at hw
  repeat' split at hw
  all_goals simp_all [emptyRepoLists, executeOrgOperations_public,
    executeOrgOperations_private]


theorem orgStatusCheckStep_preserves (o : OrgOracle) (org : GithubOrganization)
    (h : emptyRepoLists org.status) :
    (∀ w ∈ (orgStatusCheckStep o org).1, emptyRepoLists w) ∧
    (∀ org2, (orgStatusCheckStep o org).2 = some org2 → emptyRepoLists org2.status) := by
  have hfetch := fun p e => orgFetchFailWrite_preserves o org p e h
  have howner := orgOwnerSyncStep_preserves o org h
  have hteam := orgTeamSyncStep_preserves o org h
  constructor
  · intro w hw
    unfold orgStatusCheckStep at hw
    repeat' split at hw
    all_goals try simp_all [emptyRepoLists]
    all_goals try (repeat' split at hw)
    all_goals try simp_all [emptyRepoLists]
    all_goals try (repeat' split at hw)
    all_goals try simp_all [emptyRepoLists]
    all_goals try exact hfetch _ _ w hw
    all_goals try exact howner w hw
    all_goals try exact hteam w hw
    rename_i hsome hm1 hm2
    have hrw := orgRepoSyncStep_writes o org _ _ _ hsome w hw
    exact ⟨hrw.1, hrw.2.1⟩
  · intro org2 h2
    unfold orgStatusCheckStep at h2
    repeat' split at h2
    all_goals try simp_all [emptyRepoLists]
    all_goals try (repeat' split at h2)
    all_goals try simp_all [emptyRepoLists]
    all_goals (subst h2; exact ⟨rfl, rfl⟩)

/-- Preservation along a step sequence: when every step maps an
organization with empty repository lists to empty-listed writes and an
empty-listed continuation, every write of the whole run is empty-listed. -/
theorem runSteps_preserves
    (steps : List (GithubOrganization →
      List GithubOrganizationStatus × Option GithubOrganization)) :
    ∀ org : GithubOrganization, emptyRepoLists org.status →
      (∀ f ∈ steps, ∀ g : GithubOrganization, emptyRepoLists g.status →
        (∀ w ∈ (f g).1, emptyRepoLists w) ∧
        (∀ g2, (f g).2 = some g2 → emptyRepoLists g2.status)) →
      ∀ w ∈ runSteps steps org, emptyRepoLists w := by
  induction steps with
  | nil =>
    intro org _ _ w hw
    simp [runSteps] at hw
  | cons f fs ih =>
    intro org horg hsteps w hw
    have hf := hsteps f (List.mem_cons_self f fs) org horg
    unfold runSteps at hw
    rcases hfo : f org with ⟨wl, c⟩
    rw [hfo] at hw hf
    cases c with
    | none => exact hf.1 w hw
    | some g2 =>
      rcases List.mem_append.mp hw with hw2 | hw2
      · exact hf.1 w hw2
      · exact ih g2 (hf.2 g2 rfl)
          (fun f2 hf2 => hsteps f2 (List.mem_cons_of_mem f hf2)) w hw2


/-- C8: every status the organization reconciler persists keeps
`publicRepositories` and `privateRepositories` empty.  (1) The property is
an invariant of a whole reconcile: from a status with empty lists, every
status written by `orgReconcileWrites` has empty lists.  (2) It is
established: on a non-pending status whose persisted lists are non-empty,
a status check with successful fetches immediately writes a status with
cleared lists and stops the reconcile.  (3) The repository diff runs on a
temporary copy that is never stored: every write of the repo-sync step has
empty lists and stores only the compact `outOfPolicyRepositories` set, the
distinct repository names carrying a pending or failed repo-team
operation. -/
theorem C8_repo_lists_never_persisted (o : OrgOracle) (org : GithubOrganization) :
    (emptyRepoLists org.status →
      ∀ w ∈ orgReconcileWrites o org, emptyRepoLists w) ∧
    (∀ tl pub priv ext,
      org.status.organizationStatus ≠ .pending →
      o.ownersForge = .ok () →
      o.teamsForge = .ok tl →
      o.reposForge = .ok (pub, priv) →
      o.extendResult = .ok ext →
      (0 < org.status.publicRepositories.length ∨
        0 < org.status.privateRepositories.length) →
      ∃ w, orgStatusCheckStep o org = ([w], none) ∧ emptyRepoLists w) ∧
    (∀ pub priv ws, orgRepoSyncStep o org pub priv = some ws → ∀ w ∈ ws,
      emptyRepoLists w ∧
      w.outOfPolicyRepositories =
        uniquePendingOrFailedRepoNames w.operations.repositoryTeamOperations) := by
  refine ⟨?_, ?_, ?_⟩
  · intro horg w hw
    refine runSteps_preserves _ org horg ?_ w hw
    intro f hf g hg
    simp only [List.mem_cons, List.not_mem_nil, or_false] at hf
    rcases hf with rfl | rfl | rfl | rfl | rfl | rfl | rfl | rfl
    · exact orgRateLimitStep_preserves o g hg
    · exact orgFailedTTLStep_preserves o g hg
    · exact orgCompletedTTLStep_preserves o g hg
    · exact orgValidationStep_preserves o g hg
    · exact orgStatusCheckStep_preserves o g hg
    · exact orgDryRunStep_preserves o g hg
    · exact orgCleanStep_preserves o g hg
    · exact ⟨fun w2 hw2 => orgExecStep_preserves o g hg w2 hw2,
        fun g2 h2 => Option.noConfusion h2⟩
  · intro tl pub priv ext hpend ho ht hr he hne
    have hupd : (decide (0 < org.status.publicRepositories.length) ||
        decide (0 < org.status.privateRepositories.length)) = true := by
      rcases hne with h1 | h1 <;> simp [h1]
    unfold orgStatusCheckStep
    rw [if_neg hpend, ho, ht, hr]
    dsimp only
    rw [he]
    dsimp only
    rw [hupd]
    simp only [Bool.true_or, if_true, ite_true]
    refine ⟨_, rfl, ?_⟩
    constructor
    · repeat' split
      all_goals rfl
    · repeat' split
      all_goals rfl
  · intro pub priv ws hws w hw
    have h := orgRepoSyncStep_writes o org pub priv ws hws w hw
    exact ⟨⟨h.1, h.2.1⟩, h.2.2⟩

theorem C8_repo_lists_never_persisted_witness :
    (∀ w ∈ orgReconcileWrites orgOracle0 orgFresh, emptyRepoLists w) ∧
    (∃ w, orgStatusCheckStep orgOracle0 orgStale = ([w], none) ∧ emptyRepoLists w) ∧
    (∀ w ∈ (orgRepoSyncStep orgOracle0 orgFresh [] []).getD [],
      emptyRepoLists w ∧
      w.outOfPolicyRepositories =
        uniquePendingOrFailedRepoNames w.operations.repositoryTeamOperations) :=
  ⟨(C8_repo_lists_never_persisted orgOracle0 orgFresh).1 ⟨rfl, rfl⟩,
   (C8_repo_lists_never_persisted orgOracle0 orgStale).2.1 [] [] [] []
     (by decide) rfl rfl rfl rfl (Or.inl (by decide)),
   (C8_repo_lists_never_persisted orgOracle0 orgFresh).2.2 [] [] _ rfl⟩

end RepoGuard
